import Mathlib

/-!
Verification development for the patent text segmentation and section-splitting
engine of `DescriptionReaderSubAgent` (and the shared `_clean_text` of
`ClaimsReaderSubAgent`).  Text is modelled as `List Char`; Python `re` searches
of the concrete patterns appearing in the source are modelled by a small
backtracking matcher (`runRE`) whose candidate-end lists are ordered exactly
like Python's leftmost/alternation-order/greedy backtracking, so that
`(runRE r t i).head?` is Python's match end at `i` and `searchFrom` is
`pattern.search(text, pos)`.
-/

set_option maxRecDepth 8000

/-- Characters of a Lean string literal, used to transcribe Python string data. -/
def str (s : String) : List Char := s.toList

/-- ASCII whitespace, as matched by Python `\s` / stripped by `str.strip()`. -/
def isWs (c : Char) : Bool :=
  c == ' ' || c == '\t' || c == '\n' || c == '\r' || c == '\x0b' || c == '\x0c'

/-- Python `str.lstrip()`. -/
def trimL (s : List Char) : List Char := s.dropWhile isWs

/-- Python `str.rstrip()`. -/
def trimR (s : List Char) : List Char := (s.reverse.dropWhile isWs).reverse

/-- Python `str.strip()`. -/
def trim (s : List Char) : List Char := trimR (trimL s)

/-- Python slice `t[a:b]`. -/
def pySlice (t : List Char) (a b : Nat) : List Char := (t.take b).drop a

/-- Python `text.split("\n")`. -/
def splitLines (s : List Char) : List (List Char) :=
  s.foldr (fun c r => if c = '\n' then [] :: r else (c :: r.headD []) :: r.tail) [[]]

/-- Python `"\n".join(lines)`. -/
def joinLines : List (List Char) → List Char
  | [] => []
  | [l] => l
  | l :: l' :: ls => l ++ '\n' :: joinLines (l' :: ls)

/-- Python `int()` on a run of decimal digit characters. -/
def digitsVal (ds : List Char) : Nat :=
  ds.foldl (fun n c => 10 * n + (c.toNat - 48)) 0

/--
One line of the line-number cleaning loop of `_clean_text`:
`re.match(r"^(\s*)(\d+)(\s+)", line)`, and if the digit run is a strictly
positive multiple of 5, `line = line[match.end():]`.  The three groups are
greedy runs over disjoint character classes, so the match is the maximal
whitespace run, then the maximal digit run, then the maximal whitespace run
(required nonempty), and `match.end()` is the end of the third run.
-/
def stripLine (line : List Char) : List Char :=
  let rest := line.dropWhile isWs
  let ds := rest.takeWhile Char.isDigit
  let rest2 := rest.dropWhile Char.isDigit
  let ws2 := rest2.takeWhile isWs
  if ds ≠ [] ∧ ws2 ≠ [] ∧ 0 < digitsVal ds ∧ digitsVal ds % 5 = 0 then
    rest2.dropWhile isWs
  else line

/-- The whole line-number stripping pass: split on `"\n"`, clean each line, re-join. -/
def stripLineNums (t : List Char) : List Char :=
  joinLines ((splitLines t).map stripLine)

/-! ## A backtracking matcher for the concrete patterns of the source

Only the constructs those patterns use: character classes, sequencing,
alternation, greedy `*`/`+` over a character class, greedy `?`, and the
multiline anchors `^` / `$`.  `runRE r t i` returns the list of candidate match
ends in Python's backtracking preference order.
-/

inductive RE where
  | eps : RE
  | bol : RE
  | eol : RE
  | cls (p : Char → Bool) : RE
  | seq (a b : RE) : RE
  | alt (a b : RE) : RE
  | star (p : Char → Bool) : RE
  | plus (p : Char → Bool) : RE
  | opt (a : RE) : RE

/-- Length of the maximal run of class-`p` characters starting at `i`. -/
def runLen (p : Char → Bool) (t : List Char) (i : Nat) : Nat :=
  ((t.drop i).takeWhile p).length

/-- `[i+r, i+r-1, ..., i]`: candidate ends in greedy (longest-first) order. -/
def descEnds (i : Nat) : Nat → List Nat
  | 0 => [i]
  | k + 1 => (i + k + 1) :: descEnds i k

/-- Candidate ends for a greedy `p*` at `i`: `[i+k, i+k-1, ..., i]`. -/
def starEnds (p : Char → Bool) (t : List Char) (i : Nat) : List Nat :=
  descEnds i (runLen p t i)

/-- Multiline `^`: start of text or just after a newline. -/
def atBol (t : List Char) (i : Nat) : Bool :=
  i == 0 || t.get? (i - 1) == some '\n'

/-- Multiline `$`: end of text or just before a newline. -/
def atEol (t : List Char) (i : Nat) : Bool :=
  i == t.length || t.get? i == some '\n'

def runRE : RE → List Char → Nat → List Nat
  | .eps, _, i => [i]
  | .bol, t, i => if atBol t i then [i] else []
  | .eol, t, i => if atEol t i then [i] else []
  | .cls p, t, i =>
    match t.get? i with
    | some c => if p c then [i + 1] else []
    | none => []
  | .seq a b, t, i => (runRE a t i).flatMap (fun j => runRE b t j)
  | .alt a b, t, i => runRE a t i ++ runRE b t i
  | .star p, t, i => starEnds p t i
  | .plus p, t, i => (starEnds p t i).dropLast
  | .opt a, t, i => runRE a t i ++ [i]

/-- Scan positions `i, i+1, ...` (`n` of them) for the first with a match. -/
def searchAux (r : RE) (t : List Char) : Nat → Nat → Option (Nat × Nat)
  | 0, _ => none
  | n + 1, i =>
    match (runRE r t i).head? with
    | some e => some (i, e)
    | none => searchAux r t n (i + 1)

/-- Python `pattern.search(text, pos)`: start/end of the leftmost match at or after `pos`. -/
def searchFrom (r : RE) (t : List Char) (pos : Nat) : Option (Nat × Nat) :=
  searchAux r t (t.length + 1 - pos) pos

/-- Python `pattern.search(text)`. -/
def reSearch (r : RE) (t : List Char) : Option (Nat × Nat) :=
  searchFrom r t 0

/-- Case-insensitive single character, for `(?i)` literals. -/
def ciIs (c : Char) : Char → Bool := fun x => x.toLower == c

/-- A case-insensitive literal word. -/
def lit : List Char → RE
  | [] => .eps
  | c :: cs => .seq (.cls (ciIs c)) (lit cs)

def wsStar : RE := .star isWs
def wsPlus : RE := .plus isWs

/-- The class `[:\.]`. -/
def colonDot : Char → Bool := fun c => c == ':' || c == '.'

/-! ### `CLAIMS_HEADER_PATTERN`, branch by branch, in source order -/

/-- `^\s*claims?\s*$` -/
def claimsB1 : RE :=
  .seq .bol (.seq wsStar (.seq (lit (str "claim"))
    (.seq (.opt (.cls (ciIs 's'))) (.seq wsStar .eol))))

/-- `^\s*what\s+is\s+claimed\s*(is)?\s*[:\.]?\s*$` -/
def claimsB2 : RE :=
  .seq .bol (.seq wsStar (.seq (lit (str "what")) (.seq wsPlus (.seq (lit (str "is"))
    (.seq wsPlus (.seq (lit (str "claimed")) (.seq wsStar (.seq (.opt (lit (str "is")))
      (.seq wsStar (.seq (.opt (.cls colonDot)) (.seq wsStar .eol)))))))))))

/-- `^\s*what\s+we\s+claim\s*(is)?\s*[:\.]?\s*$` -/
def claimsB3 : RE :=
  .seq .bol (.seq wsStar (.seq (lit (str "what")) (.seq wsPlus (.seq (lit (str "we"))
    (.seq wsPlus (.seq (lit (str "claim")) (.seq wsStar (.seq (.opt (lit (str "is")))
      (.seq wsStar (.seq (.opt (.cls colonDot)) (.seq wsStar .eol)))))))))))

/-- `^\s*i\s+claim\s*[:\.]?\s*$` -/
def claimsB4 : RE :=
  .seq .bol (.seq wsStar (.seq (lit (str "i")) (.seq wsPlus (.seq (lit (str "claim"))
    (.seq wsStar (.seq (.opt (.cls colonDot)) (.seq wsStar .eol)))))))

/-- `^\s*we\s+claim\s*[:\.]?\s*$` -/
def claimsB5 : RE :=
  .seq .bol (.seq wsStar (.seq (lit (str "we")) (.seq wsPlus (.seq (lit (str "claim"))
    (.seq wsStar (.seq (.opt (.cls colonDot)) (.seq wsStar .eol)))))))

/-- `DescriptionReaderSubAgent.CLAIMS_HEADER_PATTERN`. -/
def claimsRE : RE := .alt claimsB1 (.alt claimsB2 (.alt claimsB3 (.alt claimsB4 claimsB5)))

/-! ### `ABSTRACT_HEADER_PATTERN` -/

/-- `^\s*abstract\s*$` -/
def absB1 : RE := .seq .bol (.seq wsStar (.seq (lit (str "abstract")) (.seq wsStar .eol)))

/-- `^\s*abstract\s+of\s+the\s+disclosure\s*[:\.]?\s*$` -/
def absB2 : RE :=
  .seq .bol (.seq wsStar (.seq (lit (str "abstract")) (.seq wsPlus (.seq (lit (str "of"))
    (.seq wsPlus (.seq (lit (str "the")) (.seq wsPlus (.seq (lit (str "disclosure"))
      (.seq wsStar (.seq (.opt (.cls colonDot)) (.seq wsStar .eol)))))))))))

/-- `^\s*abstract\s+of\s+the\s+invention\s*[:\.]?\s*$` -/
def absB3 : RE :=
  .seq .bol (.seq wsStar (.seq (lit (str "abstract")) (.seq wsPlus (.seq (lit (str "of"))
    (.seq wsPlus (.seq (lit (str "the")) (.seq wsPlus (.seq (lit (str "invention"))
      (.seq wsStar (.seq (.opt (.cls colonDot)) (.seq wsStar .eol)))))))))))

/-- `^\s*abstract\s*[:\.]\s*$` -/
def absB4 : RE :=
  .seq .bol (.seq wsStar (.seq (lit (str "abstract"))
    (.seq wsStar (.seq (.cls colonDot) (.seq wsStar .eol)))))

/-- `^\s*abstract\s+` -/
def absB5 : RE := .seq .bol (.seq wsStar (.seq (lit (str "abstract")) wsPlus))

/-- `DescriptionReaderSubAgent.ABSTRACT_HEADER_PATTERN`. -/
def abstractRE : RE := .alt absB1 (.alt absB2 (.alt absB3 (.alt absB4 absB5)))

/-- `^(?:description|background|summary|detailed\s+description|brief\s+description)\s*$`,
the section-header pattern searched inside `text[abstract_start:]` in `_extract_abstract`. -/
def sectionRE : RE :=
  .seq .bol (.seq
    (.alt (lit (str "description")) (.alt (lit (str "background")) (.alt (lit (str "summary"))
      (.alt (.seq (lit (str "detailed")) (.seq wsPlus (lit (str "description"))))
            (.seq (lit (str "brief")) (.seq wsPlus (lit (str "description"))))))))
    (.seq wsStar .eol))

/-- `\n\s*\n`, the paragraph-break pattern of `_extract_abstract`. -/
def paraRE : RE :=
  .seq (.cls (fun c => c == '\n')) (.seq wsStar (.cls (fun c => c == '\n')))

/-! ## The splitting operations of `DescriptionReaderSubAgent` -/

/-- The `abstract_end` computation of `_extract_abstract`, given the abstract
header's match end `aStart`.  Priority: next claims header searched from
`aStart` in `t`; else the section-header pattern searched in the slice
`t[aStart:]` (re-anchored at the slice start); else a paragraph break in the
slice, used only when its offset is `< 500`; else end of text. -/
def abstractEnd (t : List Char) (aStart : Nat) : Nat :=
  match searchFrom claimsRE t aStart with
  | some (cs, _) => cs
  | none =>
    match reSearch sectionRE (t.drop aStart) with
    | some (hs, _) => aStart + hs
    | none =>
      match reSearch paraRE (t.drop aStart) with
      | some (ps, _) => if ps < 500 then aStart + ps else t.length
      | none => t.length

/-- `DescriptionReaderSubAgent._extract_abstract`. -/
def extractAbstract (t : List Char) : List Char × Option (List Char) :=
  match reSearch abstractRE t with
  | none => (t, none)
  | some (ms, me) =>
    let aEnd := abstractEnd t me
    let aTxt := trim (pySlice t me aEnd)
    if aTxt = [] then (t, none)
    else (trim (t.take ms ++ t.drop aEnd), some aTxt)

/-- `DescriptionReaderSubAgent._strip_abstract_from_claims`. -/
def stripAbstractFromClaims (ct : List Char) : List Char × Option (List Char) :=
  match reSearch abstractRE ct with
  | some (ms, me) => (trim (ct.take ms), some (trim (ct.drop me)))
  | none => (ct, none)

/-- The three output slots of `_split_and_save` (`claims`/`abstract` are `none`
when the corresponding file is not produced / `None` is returned). -/
structure Sections where
  description : List Char
  claims : Option (List Char)
  abstract : Option (List Char)
deriving DecidableEq, Repr

/-- Python's `x or y` on the abstract slots: `None` and `""` are falsy. -/
def pyOr (a b : Option (List Char)) : Option (List Char) :=
  match a with
  | some s => if s = [] then b else some s
  | none => b

/-- `DescriptionReaderSubAgent._split_and_save` (its pure splitting content). -/
def splitAndSave (full : List Char) : Sections :=
  match reSearch claimsRE full with
  | none =>
    let r := extractAbstract (trim full)
    ⟨r.1, none, r.2⟩
  | some (cs, _) =>
    let ct0 := trim (full.drop cs)
    let sc := stripAbstractFromClaims ct0
    let d0 := trim (full.take cs)
    let ed := extractAbstract d0
    ⟨ed.1, some sc.1, pyOr sc.2 ed.2⟩

/-! ## `_html_tables_to_markdown` and `_clean_text` -/

/-- Is `pat` an initial segment of `s`? -/
def leadsWith : List Char → List Char → Bool
  | [], _ => true
  | _ :: _, [] => false
  | a :: as, b :: bs => a == b && leadsWith as bs

/-- Split `s` at the first occurrence of `pat`: `s = before ++ pat ++ after`. -/
def splitFirst (pat : List Char) : List Char → Option (List Char × List Char)
  | [] => if leadsWith pat [] then some ([], []) else none
  | c :: cs =>
    if leadsWith pat (c :: cs) then some ([], (c :: cs).drop pat.length)
    else
      match splitFirst pat cs with
      | some (a, b) => some (c :: a, b)
      | none => none

def tableOpen : List Char := str "<table>"
def tableClose : List Char := str "</table>"

/-- `re.findall(r"<tr>(.*?)</tr>", html, re.DOTALL)`: each match takes the next
`<tr>` and the earliest `</tr>` after it; scanning resumes after the `</tr>`. -/
def rowsGo : Nat → List Char → List (List Char)
  | 0, _ => []
  | f + 1, s =>
    match splitFirst (str "<tr>") s with
    | none => []
    | some (_, rest) =>
      match splitFirst (str "</tr>") rest with
      | none => []
      | some (content, after) => content :: rowsGo f after

def rowsOf (html : List Char) : List (List Char) := rowsGo html.length html

/-- Match one cell-opening tag `<t[dh][^>]*>` at the head of `s`; on success
return the suffix after the `>`. -/
def cellOpenAt : List Char → Option (List Char)
  | '<' :: 't' :: c :: rest =>
    if c = 'd' ∨ c = 'h' then
      match rest.dropWhile (· ≠ '>') with
      | '>' :: after => some after
      | _ => none
    else none
  | _ => none

/-- The closing tag `</t[dh]>` at the head of `s`? Return the suffix after it. -/
def cellCloseAt : List Char → Option (List Char)
  | '<' :: '/' :: 't' :: c :: '>' :: rest =>
    if c = 'd' ∨ c = 'h' then some rest else none
  | _ => none

/-- Scan for the earliest cell-closing tag, accumulating the lazy group `(.*?)`
(DOTALL, so any character may intervene). -/
def cellContent : Nat → List Char → Option (List Char × List Char)
  | 0, _ => none
  | f + 1, s =>
    match cellCloseAt s with
    | some after => some ([], after)
    | none =>
      match s with
      | [] => none
      | c :: cs =>
        match cellContent f cs with
        | some (g, after) => some (c :: g, after)
        | none => none

/-- One match of `<t[dh][^>]*>(.*?)</t[dh]>` scanning left to right. -/
def cellFind : Nat → List Char → Option (List Char × List Char)
  | 0, _ => none
  | f + 1, s =>
    match cellOpenAt s with
    | some inner =>
      match cellContent inner.length inner with
      | some (g, after) => some (g, after)
      | none =>
        match s with
        | [] => none
        | _ :: cs => cellFind f cs
    | none =>
      match s with
      | [] => none
      | _ :: cs => cellFind f cs

/-- `re.findall(r"<t[dh][^>]*>(.*?)</t[dh]>", row, re.DOTALL)` with each cell
stripped, as in `convert_table`. -/
def cellsGo : Nat → List Char → List (List Char)
  | 0, _ => []
  | f + 1, s =>
    match cellFind s.length s with
    | some (g, after) => trim g :: cellsGo f after
    | none => []

def cellsOf (row : List Char) : List (List Char) := cellsGo row.length row

/-- `"| " + " | ".join(cells) + " |"`. -/
def mdRow (cells : List (List Char)) : List Char :=
  str "| " ++ joinSep (str " | ") cells ++ str " |"
where
  joinSep (sep : List Char) : List (List Char) → List Char
    | [] => []
    | [x] => x
    | x :: y :: ys => x ++ sep ++ joinSep sep (y :: ys)

/-- `convert_table` of `_html_tables_to_markdown`: emit one pipe row per `<tr>`
row, with a `---` separator (one per first-row cell) after the first row;
tables with zero rows become the empty string. -/
def convertTable (html : List Char) : List Char :=
  match rowsOf html with
  | [] => []
  | r0 :: rs =>
    let c0 := cellsOf r0
    joinLines (mdRow c0 :: mdRow (List.replicate c0.length (str "---")) ::
      rs.map (fun r => mdRow (cellsOf r)))

/-- `re.sub(r"<table>.*?</table>", convert_table, text, flags=re.DOTALL)`:
the non-greedy span runs from each `<table>` to the earliest following
`</table>`; if no `</table>` follows, nothing matches and the remainder is
left unchanged. -/
def tablesGo : Nat → List Char → List Char
  | 0, s => s
  | f + 1, s =>
    match splitFirst tableOpen s with
    | none => s
    | some (pre, rest) =>
      match splitFirst tableClose rest with
      | none => s
      | some (mid, post) =>
        pre ++ convertTable (tableOpen ++ mid ++ tableClose) ++ tablesGo f post

def tablesToMarkdown (s : List Char) : List Char := tablesGo s.length s

/-- Scan for the first occurrence of `pat` with no newline strictly before it;
return the suffix after `pat`.  Models a lazy `.*?` (no DOTALL) followed by a
literal. -/
def scanNoNL (pat : List Char) : List Char → Option (List Char)
  | [] => none
  | c :: cs =>
    if leadsWith pat (c :: cs) then some ((c :: cs).drop pat.length)
    else if c = '\n' then none
    else scanNoNL pat cs

/-- A match of `!\[.*?\]\(images/.*?\)` at the head of `s`? Return the suffix
after the match. -/
def imageAt : List Char → Option (List Char)
  | '!' :: '[' :: rest =>
    match scanNoNL (str "](images/") rest with
    | none => none
    | some rest2 => scanNoNL [')'] rest2
  | _ => none

/-- Leftmost match of the image-link pattern: `(before, after)`. -/
def imageFind : List Char → Option (List Char × List Char)
  | [] => none
  | c :: cs =>
    match imageAt (c :: cs) with
    | some rest => some ([], rest)
    | none =>
      match imageFind cs with
      | some (a, b) => some (c :: a, b)
      | none => none

/-- `re.sub(r"!\[.*?\]\(images/.*?\)", "", text)`. -/
def imageGo : Nat → List Char → List Char
  | 0, s => s
  | f + 1, s =>
    match imageFind s with
    | none => s
    | some (pre, post) => pre ++ imageGo f post

def imageSub (t : List Char) : List Char := imageGo t.length t

/-- `DescriptionReaderSubAgent._clean_text`: image-link removal, `'#'` removal
(`text.replace("#", "")`), table conversion, then per-line number stripping. -/
def cleanText (t : List Char) : List Char :=
  stripLineNums (tablesToMarkdown ((imageSub t).filter (fun c => c ≠ '#')))

/-! ## Helper lemmas: lines, whitespace, runs -/

theorem splitLines_ne_nil (s : List Char) : splitLines s ≠ [] := by
  induction s with
  | nil => simp [splitLines]
  | cons c cs ih =>
    simp only [splitLines, List.foldr] at *
    split <;> simp

theorem joinLines_cons (x : List Char) (L : List (List Char)) (h : L ≠ []) :
    joinLines (x :: L) = x ++ '\n' :: joinLines L := by
  cases L with
  | nil => exact absurd rfl h
  | cons y ys => rfl

theorem splitLines_cons_nl (cs : List Char) :
    splitLines ('\n' :: cs) = [] :: splitLines cs := by
  simp [splitLines]

theorem splitLines_cons_other (c : Char) (cs : List Char) (h : c ≠ '\n') :
    splitLines (c :: cs) =
      (c :: (splitLines cs).headD []) :: (splitLines cs).tail := by
  simp [splitLines, h]

theorem joinLines_splitLines (s : List Char) : joinLines (splitLines s) = s := by
  induction s with
  | nil => rfl
  | cons c cs ih =>
    by_cases h : c = '\n'
    · subst h
      rw [splitLines_cons_nl, joinLines_cons _ _ (splitLines_ne_nil cs)]
      simp [ih]
    · rw [splitLines_cons_other c cs h]
      obtain ⟨m, ms, hm⟩ := List.exists_cons_of_ne_nil (splitLines_ne_nil cs)
      rw [hm] at ih ⊢
      cases ms with
      | nil => simpa [joinLines] using ih
      | cons m' ms' =>
        rw [joinLines_cons _ _ (by simp)] at ih ⊢
        simp_all

theorem mem_splitLines_no_nl (s : List Char) (l : List Char)
    (hl : l ∈ splitLines s) : '\n' ∉ l := by
  induction s generalizing l with
  | nil =>
    simp only [splitLines, List.foldr] at hl
    rcases List.mem_singleton.mp hl with rfl
    simp
  | cons c cs ih =>
    by_cases h : c = '\n'
    · subst h
      rw [splitLines_cons_nl] at hl
      rcases List.mem_cons.mp hl with rfl | hl2
      · simp
      · exact ih l hl2
    · rw [splitLines_cons_other c cs h] at hl
      obtain ⟨m, ms, hm⟩ := List.exists_cons_of_ne_nil (splitLines_ne_nil cs)
      rw [hm] at hl
      simp only [List.headD, List.tail] at hl
      rcases List.mem_cons.mp hl with rfl | hl2
      · intro hmem
        rcases List.mem_cons.mp hmem with h1 | h1
        · exact h h1.symm
        · exact ih m (by rw [hm]; exact List.mem_cons_self m ms) h1
      · exact ih l (by rw [hm]; exact List.mem_cons_of_mem m hl2)

theorem splitLines_single (l : List Char) (h : '\n' ∉ l) : splitLines l = [l] := by
  induction l with
  | nil => rfl
  | cons c cs ih =>
    have hc : c ≠ '\n' := fun he => h (he ▸ List.mem_cons_self c cs)
    rw [splitLines_cons_other c cs hc, ih (fun hm => h (List.mem_cons_of_mem c hm))]
    rfl

theorem splitLines_append_nl (l rest : List Char) (h : '\n' ∉ l) :
    splitLines (l ++ '\n' :: rest) = l :: splitLines rest := by
  induction l with
  | nil => simpa using splitLines_cons_nl rest
  | cons c cs ih =>
    have hc : c ≠ '\n' := fun he => h (he ▸ List.mem_cons_self c cs)
    rw [List.cons_append, splitLines_cons_other c _ hc,
      ih (fun hm => h (List.mem_cons_of_mem c hm))]
    rfl

theorem splitLines_joinLines (ls : List (List Char)) (h0 : ls ≠ [])
    (h1 : ∀ l ∈ ls, '\n' ∉ l) : splitLines (joinLines ls) = ls := by
  induction ls with
  | nil => exact absurd rfl h0
  | cons l ls ih =>
    cases ls with
    | nil => exact splitLines_single l (h1 l (by simp))
    | cons l' ls' =>
      rw [joinLines_cons _ _ (by simp), splitLines_append_nl _ _ (h1 l (by simp)),
        ih (by simp) (fun x hx => h1 x (List.mem_cons_of_mem l hx))]

theorem mem_of_mem_dropWhile {p : Char → Bool} {a : Char} :
    ∀ {l : List Char}, a ∈ l.dropWhile p → a ∈ l := by
  intro l
  induction l with
  | nil => simp [List.dropWhile]
  | cons c cs ih =>
    simp only [List.dropWhile]
    split
    · intro h; exact List.mem_cons_of_mem c (ih h)
    · exact id

theorem stripLine_no_nl (l : List Char) (h : '\n' ∉ l) : '\n' ∉ stripLine l := by
  unfold stripLine
  dsimp only
  split
  · intro hm
    exact h (mem_of_mem_dropWhile (mem_of_mem_dropWhile (mem_of_mem_dropWhile hm)))
  · exact h

theorem map_fixpoints {α : Type} (f : α → α) :
    ∀ (L : List α), (∀ l ∈ L, f l = l) → L.map f = L := by
  intro L
  induction L with
  | nil => intro _; rfl
  | cons x xs ih =>
    intro h
    simp only [List.map_cons, h x (by simp), ih (fun l hl => h l (List.mem_cons_of_mem x hl))]

theorem takeWhile_app (p : Char → Bool) (x y : List Char)
    (hx : ∀ c ∈ x, p c = true) (hy : ∀ c, y.head? = some c → p c = false) :
    (x ++ y).takeWhile p = x := by
  induction x with
  | nil =>
    cases y with
    | nil => rfl
    | cons c cs => simp [List.takeWhile, hy c rfl]
  | cons a as ih =>
    simp [List.cons_append, List.takeWhile_cons, hx a (by simp),
      ih (fun c hc => hx c (List.mem_cons_of_mem a hc))]

theorem dropWhile_app (p : Char → Bool) (x y : List Char)
    (hx : ∀ c ∈ x, p c = true) (hy : ∀ c, y.head? = some c → p c = false) :
    (x ++ y).dropWhile p = y := by
  induction x with
  | nil =>
    cases y with
    | nil => rfl
    | cons c cs => simp [List.dropWhile, hy c rfl]
  | cons a as ih =>
    simp [List.cons_append, List.dropWhile_cons, hx a (by simp),
      ih (fun c hc => hx c (List.mem_cons_of_mem a hc))]

theorem ws_chars {c : Char} (h : isWs c = true) :
    c = ' ' ∨ c = '\t' ∨ c = '\n' ∨ c = '\r' ∨ c = '\x0b' ∨ c = '\x0c' := by
  simp only [isWs, Bool.or_eq_true, beq_iff_eq] at h
  tauto

theorem digit_not_ws {c : Char} (h : Char.isDigit c = true) : isWs c = false := by
  cases hws : isWs c with
  | false => rfl
  | true =>
    exfalso
    rcases ws_chars hws with h1 | h1 | h1 | h1 | h1 | h1 <;> subst h1 <;>
      exact absurd h (by decide)

theorem ws_not_digit {c : Char} (h : isWs c = true) : Char.isDigit c = false := by
  cases hd : Char.isDigit c with
  | false => rfl
  | true =>
    rw [digit_not_ws hd] at h
    exact absurd h (by decide)

/-! ## C1: idempotence of line-number stripping (corrected) -/

/-- C1 counterexample: the stripper is not idempotent.  On `"10 5 x"` one
application yields `"5 x"`, whose line again begins with a strippable number,
so a second application yields `"x"`. -/
theorem C1_idempotence_counterexample :
    stripLineNums (stripLineNums (str "10 5 x")) ≠ stripLineNums (str "10 5 x") := by
  decide

/-- C1 (amended): applying the line-number stripper twice yields the same
result as applying it once, provided no line of the once-stripped text again
begins with a strippable line-number token (i.e. every line of the output is a
fixed point of the per-line strip). -/
theorem C1_idempotent_when_output_stable (t : List Char)
    (h : ∀ l ∈ splitLines (stripLineNums t), stripLine l = l) :
    stripLineNums (stripLineNums t) = stripLineNums t := by
  have hsplit : splitLines (stripLineNums t) = (splitLines t).map stripLine := by
    unfold stripLineNums
    refine splitLines_joinLines _ ?_ ?_
    · intro hnil
      exact splitLines_ne_nil t (List.map_eq_nil_iff.mp hnil)
    · intro l hl
      obtain ⟨l0, hl0, rfl⟩ := List.mem_map.mp hl
      exact stripLine_no_nl l0 (mem_splitLines_no_nl t l0 hl0)
  conv_lhs => rw [stripLineNums, hsplit]
  rw [map_fixpoints stripLine _ (hsplit ▸ h)]
  rfl

/-- C1 witness. -/
theorem C1_idempotent_witness :
    (∀ l ∈ splitLines (stripLineNums (str "5 a\nb c")), stripLine l = l) ∧
      stripLineNums (stripLineNums (str "5 a\nb c")) = stripLineNums (str "5 a\nb c") :=
  ⟨by decide, C1_idempotent_when_output_stable _ (by decide)⟩

/-! ## C2: the exact per-line stripping shape (corrected) -/

/-- C2 counterexample: on a line with leading whitespace the stripper also
removes the leading whitespace, not just the digit run and the whitespace
after it: `"  5 foo"` becomes `"foo"`, not `"  foo"`. -/
theorem C2_leading_whitespace_counterexample :
    stripLine (str "  5 foo") = str "foo" ∧ stripLine (str "  5 foo") ≠ str "  foo" := by
  constructor <;> decide

/-- C2 (amended): if a line is optional whitespace, then a digit run whose
value is a strictly positive multiple of 5, then nonempty whitespace, then a
remainder not starting with whitespace, the stripper removes the leading
whitespace, the digit run and the following whitespace and returns exactly the
remainder; and any line on which the greedy parse fails one of its conditions
is returned unchanged. -/
theorem C2_strip_shape_exact :
    (∀ ws1 ds ws2 rest : List Char,
      (∀ c ∈ ws1, isWs c = true) → ds ≠ [] → (∀ c ∈ ds, Char.isDigit c = true) →
      ws2 ≠ [] → (∀ c ∈ ws2, isWs c = true) →
      (∀ c, rest.head? = some c → isWs c = false) →
      0 < digitsVal ds → digitsVal ds % 5 = 0 →
      stripLine (ws1 ++ ds ++ ws2 ++ rest) = rest) ∧
    (∀ line : List Char,
      ((line.dropWhile isWs).takeWhile Char.isDigit = [] ∨
       (((line.dropWhile isWs).dropWhile Char.isDigit).takeWhile isWs = []) ∨
       digitsVal ((line.dropWhile isWs).takeWhile Char.isDigit) = 0 ∨
       digitsVal ((line.dropWhile isWs).takeWhile Char.isDigit) % 5 ≠ 0) →
      stripLine line = line) := by
  constructor
  · intro ws1 ds ws2 rest h1 h2 h3 h4 h5 h6 h7 h8
    obtain ⟨d, ds', rfl⟩ := List.exists_cons_of_ne_nil h2
    obtain ⟨w, ws2', rfl⟩ := List.exists_cons_of_ne_nil h4
    have hws2head : ∀ c, ((w :: ws2') ++ rest).head? = some c → Char.isDigit c = false := by
      intro c hc
      simp only [List.cons_append, List.head?] at hc
      exact Option.some.inj hc ▸ ws_not_digit (h5 w (by simp))
    have hdshead : ∀ c, ((d :: ds') ++ ((w :: ws2') ++ rest)).head? = some c →
        isWs c = false := by
      intro c hc
      simp only [List.cons_append, List.head?] at hc
      exact Option.some.inj hc ▸ digit_not_ws (h3 d (by simp))
    rw [List.append_assoc, List.append_assoc]
    unfold stripLine
    dsimp only
    rw [dropWhile_app _ _ _ h1 hdshead,
        takeWhile_app _ _ _ h3 hws2head,
        dropWhile_app _ _ _ h3 hws2head,
        takeWhile_app _ _ _ h5 h6,
        dropWhile_app _ _ _ h5 h6]
    rw [if_pos ⟨by simp, by simp, h7, h8⟩]
  · intro line h
    unfold stripLine
    dsimp only
    split
    · next hcond =>
      exfalso
      obtain ⟨hc1, hc2, hc3, hc4⟩ := hcond
      rcases h with h | h | h | h
      · exact hc1 h
      · exact hc2 h
      · exact absurd h (Nat.pos_iff_ne_zero.mp hc3)
      · exact h hc4
    · rfl

/-- C2 witness. -/
theorem C2_strip_shape_witness :
    stripLine (str " " ++ str "15" ++ str "  " ++ str "rest of line") = str "rest of line" ∧
      stripLine (str "7 kept") = str "7 kept" :=
  ⟨C2_strip_shape_exact.1 (str " ") (str "15") (str "  ") (str "rest of line")
      (by decide) (by decide) (by decide) (by decide) (by decide) (by decide)
      (by decide) (by decide),
   C2_strip_shape_exact.2 (str "7 kept") (by decide)⟩

/-! ## C6: totality and the empty input -/

/-- C6: the section splitter is total by construction in this embedding (it is
a Lean function on `List Char`), and on the empty string it returns description
`""`, claims absent, abstract absent. -/
theorem C6_empty_input :
    splitAndSave (str "") = ⟨str "", none, none⟩ := by decide

/-! ## C4: trailing abstract takes priority -/

/-- Lemma: all-whitespace strings trim to empty. -/
theorem trim_eq_nil_of_all_ws (s : List Char) (h : ∀ c ∈ s, isWs c = true) :
    trim s = [] := by
  unfold trim trimL trimR
  rw [List.dropWhile_eq_nil_iff.mpr h]
  rfl

/-- C4: in the claims-header-found path, a nonempty abstract stripped from the
claims tail wins over any abstract extracted from the description prefix; if
the tail yields none, the prefix abstract is used.  On the spec's example the
splitter produces exactly the stated three sections. -/
theorem C4_trailing_abstract_priority :
    (∀ full cs ce a, reSearch claimsRE full = some (cs, ce) →
      (stripAbstractFromClaims (trim (full.drop cs))).2 = some a → a ≠ [] →
      (splitAndSave full).abstract = some a) ∧
    (∀ full cs ce, reSearch claimsRE full = some (cs, ce) →
      (stripAbstractFromClaims (trim (full.drop cs))).2 = none →
      (splitAndSave full).abstract = (extractAbstract (trim (full.take cs))).2) ∧
    splitAndSave (str "Description here.\n\nClaims\n1. X.\n\nAbstract\nShort summary.") =
      ⟨str "Description here.", some (str "Claims\n1. X."), some (str "Short summary.")⟩ := by
  refine ⟨?_, ?_, by decide⟩
  · intro full cs ce a h h2 ha
    unfold splitAndSave
    rw [h]
    dsimp only
    rw [h2]
    unfold pyOr
    dsimp only
    rw [if_neg ha]
  · intro full cs ce h h2
    unfold splitAndSave
    rw [h]
    dsimp only
    rw [h2]
    rfl

/-- C4 witness. -/
theorem C4_trailing_abstract_witness :
    (splitAndSave (str "Description here.\n\nClaims\n1. X.\n\nAbstract\nShort summary.")).abstract
        = some (str "Short summary.") ∧
    (splitAndSave (str "Background text.\n\nClaims\n1. A widget.")).abstract
        = (extractAbstract (trim ((str "Background text.\n\nClaims\n1. A widget.").take 17))).2 :=
  ⟨C4_trailing_abstract_priority.1 _ 18 25 (str "Short summary.") (by decide) (by decide)
      (by decide),
   C4_trailing_abstract_priority.2.1 _ 17 24 (by decide) (by decide)⟩

/-! ## C10: an empty tail abstract is treated as absent -/

/-- C10: if the claims span's abstract header is followed only by whitespace,
the tail stripper still cuts the claims at the header's start but returns an
empty abstract, and the splitter's `or`-combination then falls back to the
abstract extracted from the description prefix. -/
theorem C10_empty_tail_abstract_falls_back :
    ∀ full cs ce p q, reSearch claimsRE full = some (cs, ce) →
      reSearch abstractRE (trim (full.drop cs)) = some (p, q) →
      (∀ c ∈ (trim (full.drop cs)).drop q, isWs c = true) →
      (stripAbstractFromClaims (trim (full.drop cs))).1
          = trim ((trim (full.drop cs)).take p) ∧
      (stripAbstractFromClaims (trim (full.drop cs))).2 = some [] ∧
      (splitAndSave full).abstract = (extractAbstract (trim (full.take cs))).2 := by
  intro full cs ce p q hcl habs hws
  have hstrip : stripAbstractFromClaims (trim (full.drop cs))
      = (trim ((trim (full.drop cs)).take p), some []) := by
    unfold stripAbstractFromClaims
    rw [habs]
    dsimp only
    rw [trim_eq_nil_of_all_ws _ hws]
  refine ⟨by rw [hstrip], by rw [hstrip], ?_⟩
  unfold splitAndSave
  rw [hcl]
  dsimp only
  rw [hstrip]
  rfl

/-- C10 witness. -/
theorem C10_empty_tail_abstract_witness :
    (splitAndSave (str "Intro.\n\nAbstract\nLead text.\n\nClaims\n1. X.\n\nAbstract\n  ")).abstract
      = (extractAbstract (trim ((str "Intro.\n\nAbstract\nLead text.\n\nClaims\n1. X.\n\nAbstract\n  ").take 28))).2 :=
  (C10_empty_tail_abstract_falls_back _ 28 35 13 22 (by decide) (by decide) (by decide)).2.2

/-! ## C7: zero-row tables are dropped; C8 groundwork -/

theorem leadsWith_iff (pat : List Char) :
    ∀ s, leadsWith pat s = true ↔ ∃ r, s = pat ++ r := by
  induction pat with
  | nil => intro s; simp [leadsWith]
  | cons p ps ih =>
    intro s
    cases s with
    | nil => simp [leadsWith]
    | cons c cs =>
      simp only [leadsWith, Bool.and_eq_true, beq_iff_eq, ih cs]
      constructor
      · rintro ⟨rfl, r, rfl⟩
        exact ⟨r, rfl⟩
      · rintro ⟨r, hr⟩
        rw [List.cons_append] at hr
        injection hr with hr1 hr2
        exact ⟨hr1.symm, r, hr2⟩

theorem splitFirst_eq (pat : List Char) :
    ∀ s a b, splitFirst pat s = some (a, b) → s = a ++ pat ++ b := by
  intro s
  induction s with
  | nil =>
    intro a b h
    unfold splitFirst at h
    split at h
    · next hlw =>
      obtain ⟨r, hr⟩ := (leadsWith_iff pat []).mp hlw
      rcases List.append_eq_nil.mp hr.symm with ⟨rfl, rfl⟩
      simp at h
      obtain ⟨rfl, rfl⟩ := h
      rfl
    · exact absurd h (by simp)
  | cons c cs ih =>
    intro a b h
    unfold splitFirst at h
    split at h
    · next hlw =>
      obtain ⟨r, hr⟩ := (leadsWith_iff pat (c :: cs)).mp hlw
      rw [Option.some.injEq, Prod.mk.injEq] at h
      rw [← h.1, ← h.2, hr, List.drop_left]
      simp
    · revert h
      cases hs : splitFirst pat cs with
      | none => simp
      | some ab =>
        obtain ⟨a', b'⟩ := ab
        intro h
        rw [Option.some.injEq, Prod.mk.injEq] at h
        rw [← h.1, ← h.2]
        simp [ih a' b' hs]

theorem splitFirst_self (pat rest : List Char) (h : pat ≠ []) :
    splitFirst pat (pat ++ rest) = some ([], rest) := by
  obtain ⟨p, ps, rfl⟩ := List.exists_cons_of_ne_nil h
  rw [List.cons_append]
  unfold splitFirst
  rw [if_pos ((leadsWith_iff _ _).mpr ⟨rest, by simp⟩)]
  rw [← List.cons_append, List.drop_left]

theorem splitFirst_none_no_head (p : Char) (ps : List Char) :
    ∀ s, p ∉ s → splitFirst (p :: ps) s = none := by
  intro s
  induction s with
  | nil => intro _; rfl
  | cons c cs ih =>
    intro h
    unfold splitFirst
    rw [if_neg, ih (fun hm => h (List.mem_cons_of_mem c hm))]
    intro hlw
    obtain ⟨r, hr⟩ := (leadsWith_iff _ _).mp hlw
    rw [List.cons_append] at hr
    exact h (hr ▸ List.mem_cons_self p _)

theorem tablesGo_congr : ∀ f1 f2 s, s.length ≤ f1 → s.length ≤ f2 →
    tablesGo f1 s = tablesGo f2 s := by
  intro f1
  induction f1 with
  | zero =>
    intro f2 s h1 _
    rw [List.length_eq_zero.mp (Nat.le_zero.mp h1)]
    cases f2 with
    | zero => rfl
    | succ m => simp [tablesGo, splitFirst, leadsWith, tableOpen, str]
  | succ n ih =>
    intro f2 s h1 h2
    cases f2 with
    | zero =>
      rw [List.length_eq_zero.mp (Nat.le_zero.mp h2)]
      simp [tablesGo, splitFirst, leadsWith, tableOpen, str]
    | succ m =>
      show tablesGo (n + 1) s = tablesGo (m + 1) s
      unfold tablesGo
      cases hs1 : splitFirst tableOpen s with
      | none => rfl
      | some pr =>
        obtain ⟨pre, rest⟩ := pr
        dsimp only
        cases hs2 : splitFirst tableClose rest with
        | none => rfl
        | some mp =>
          obtain ⟨mid, post⟩ := mp
          dsimp only
          have e1 := splitFirst_eq _ _ _ _ hs1
          have e2 := splitFirst_eq _ _ _ _ hs2
          have hlen : post.length + 1 ≤ s.length := by
            rw [e1, e2]
            simp [tableOpen, tableClose, str]
            omega
          rw [ih m post (by omega) (by omega)]

theorem C7_zero_row_table_dropped (mid post : List Char)
    (h1 : splitFirst tableClose (mid ++ (tableClose ++ post)) = some (mid, post))
    (h2 : rowsOf (tableOpen ++ mid ++ tableClose) = []) :
    tablesToMarkdown (tableOpen ++ (mid ++ (tableClose ++ post)))
      = tablesToMarkdown post := by
  have hne : tableOpen ≠ ([] : List Char) := by simp [tableOpen, str]
  have hfuel : (tableOpen ++ (mid ++ (tableClose ++ post))).length
      = post.length + mid.length + 14 + 1 := by
    simp [tableOpen, tableClose, str]
    omega
  conv_lhs => rw [tablesToMarkdown, hfuel]
  rw [tablesGo]
  rw [splitFirst_self tableOpen (mid ++ (tableClose ++ post)) hne]
  dsimp only
  rw [h1]
  dsimp only
  rw [convertTable, h2]
  dsimp only
  simp only [List.nil_append, List.append_nil]
  rw [tablesGo_congr (post.length + mid.length + 14) post.length post (by omega) (le_refl _)]
  rfl

/-- C7 witness input check. -/
theorem C7_zero_row_table_witness :
    tablesToMarkdown (tableOpen ++ (str " no rows here " ++ (tableClose ++ str "tail")))
      = tablesToMarkdown (str "tail") :=
  C7_zero_row_table_dropped (str " no rows here ") (str "tail") (by decide) (by decide)

/-! ## C8: content preservation of the cleaning step (corrected) -/

theorem imageAt_none_of_head {c : Char} {cs : List Char} (h : c ≠ '!') :
    imageAt (c :: cs) = none := by
  unfold imageAt
  split
  · next heq => injection heq with h1 _; exact absurd h1 h
  · rfl

theorem imageFind_none (s : List Char) (h : '!' ∉ s) : imageFind s = none := by
  induction s with
  | nil => rfl
  | cons c cs ih =>
    unfold imageFind
    rw [imageAt_none_of_head (fun hc => h (hc ▸ List.mem_cons_self c cs)),
      ih (fun hm => h (List.mem_cons_of_mem c hm))]

theorem imageGo_id (f : Nat) (t : List Char) (h : imageFind t = none) :
    imageGo f t = t := by
  cases f with
  | zero => rfl
  | succ n =>
    unfold imageGo
    rw [h]

theorem imageSub_id (t : List Char) (h : '!' ∉ t) : imageSub t = t :=
  imageGo_id _ _ (imageFind_none t h)

theorem tablesGo_id (f : Nat) (t : List Char) (h : '<' ∉ t) : tablesGo f t = t := by
  cases f with
  | zero => rfl
  | succ n =>
    unfold tablesGo
    rw [show tableOpen = '<' :: str "table>" from rfl, splitFirst_none_no_head _ _ t h]

theorem tablesToMarkdown_id (t : List Char) (h : '<' ∉ t) : tablesToMarkdown t = t :=
  tablesGo_id _ _ h

theorem stripLineNums_id (t : List Char) (h : ∀ l ∈ splitLines t, stripLine l = l) :
    stripLineNums t = t := by
  unfold stripLineNums
  rw [map_fixpoints stripLine _ h, joinLines_splitLines]

/-- C8 counterexample: a `'#'` occurring in ordinary prose does not survive
cleaning — `text.replace("#", "")` removes every `'#'`. -/
theorem C8_hash_removed_counterexample :
    '#' ∈ str "a # b" ∧ '#' ∉ cleanText (str "a # b") := by
  constructor <;> decide

/-- C8 (amended): the cleaning step is the identity (hence content-preserving)
on any input that contains no `'#'`, no `'!'` (so no image-link markup), no
`'<'` (so no table markup), and no line beginning with a strippable
line-number token; in general characters that are neither numbering nor markup
can still be removed, e.g. every `'#'`, and the contents of zero-row tables. -/
theorem C8_clean_identity_on_markup_free (t : List Char)
    (h1 : '#' ∉ t) (h2 : '!' ∉ t) (h3 : '<' ∉ t)
    (h4 : ∀ l ∈ splitLines t, stripLine l = l) :
    cleanText t = t := by
  unfold cleanText
  rw [imageSub_id t h2]
  have hfilter : List.filter (fun c => decide (c ≠ '#')) t = t :=
    List.filter_eq_self.mpr (fun a ha => decide_eq_true (fun hc : a = '#' => h1 (hc ▸ ha)))
  rw [hfilter, tablesToMarkdown_id t h3, stripLineNums_id t h4]

/-- C8 witness. -/
theorem C8_clean_identity_witness :
    cleanText (str "plain prose line\nand a second line") =
      str "plain prose line\nand a second line" :=
  C8_clean_identity_on_markup_free _ (by decide) (by decide) (by decide) (by decide)

/-! ## Matcher inversion and construction lemmas -/

theorem get?_drop_add (l : List Char) : ∀ (i j : Nat), (l.drop i).get? j = l.get? (i + j) := by
  induction l with
  | nil => intro i j; simp
  | cons c cs ih =>
    intro i j
    cases i with
    | zero => simp
    | succ n =>
      rw [List.drop_succ_cons, ih n j, List.get?_cons_succ.symm]
      congr 1
      omega

theorem takeWhile_get? (p : Char → Bool) :
    ∀ (l : List Char) (j : Nat), j < (l.takeWhile p).length →
      ∃ c, l.get? j = some c ∧ p c = true := by
  intro l
  induction l with
  | nil => intro j h; simp [List.takeWhile] at h
  | cons c cs ih =>
    intro j h
    rw [List.takeWhile_cons] at h
    by_cases hp : p c = true
    · rw [if_pos hp] at h
      cases j with
      | zero => exact ⟨c, rfl, hp⟩
      | succ n => exact ih n (by simpa using h)
    · rw [if_neg hp] at h
      simp at h
  
theorem takeWhile_stop (p : Char → Bool) :
    ∀ (l : List Char) (c : Char), l.get? (l.takeWhile p).length = some c → p c = false := by
  intro l
  induction l with
  | nil => intro c h; simp at h
  | cons a as ih =>
    intro c h
    rw [List.takeWhile_cons] at h
    by_cases hp : p a = true
    · rw [if_pos hp] at h
      exact ih c (by simpa using h)
    · rw [if_neg hp] at h
      simp at h
      rw [← h]
      exact Bool.not_eq_true _ ▸ hp

theorem runLen_spec (p : Char → Bool) (t : List Char) (i j : Nat)
    (h : j < runLen p t i) : ∃ c, t.get? (i + j) = some c ∧ p c = true := by
  obtain ⟨c, hc, hp⟩ := takeWhile_get? p (t.drop i) j h
  exact ⟨c, by rw [← get?_drop_add]; exact hc, hp⟩

theorem runLen_stop (p : Char → Bool) (t : List Char) (i : Nat) (c : Char)
    (h : t.get? (i + runLen p t i) = some c) : p c = false :=
  takeWhile_stop p (t.drop i) c (by rw [get?_drop_add]; exact h)

theorem runLen_ge (p : Char → Bool) (t : List Char) (i k : Nat)
    (h : ∀ j, j < k → ∃ c, t.get? (i + j) = some c ∧ p c = true) :
    k ≤ runLen p t i := by
  have aux : ∀ (l : List Char) (k : Nat),
      (∀ j, j < k → ∃ c, l.get? j = some c ∧ p c = true) → k ≤ (l.takeWhile p).length := by
    intro l
    induction l with
    | nil =>
      intro k hk
      cases k with
      | zero => simp
      | succ n => obtain ⟨c, hc, _⟩ := hk 0 (by omega); simp at hc
    | cons a as ih =>
      intro k hk
      cases k with
      | zero => simp
      | succ n =>
        obtain ⟨c, hc, hp⟩ := hk 0 (by omega)
        simp at hc
        rw [List.takeWhile_cons, if_pos (hc ▸ hp)]
        have := ih n (fun j hj => hk (j + 1) (by omega))
        simp only [List.length_cons]
        omega
  have := aux (t.drop i) k (fun j hj => by rw [get?_drop_add]; exact h j hj)
  exact this

theorem mem_descEnds (i : Nat) : ∀ (r m : Nat), m ∈ descEnds i r ↔ ∃ k, k ≤ r ∧ m = i + k := by
  intro r
  induction r with
  | zero =>
    intro m
    simp only [descEnds, List.mem_singleton]
    constructor
    · rintro rfl; exact ⟨0, Nat.le_refl 0, by omega⟩
    · rintro ⟨k, hk, rfl⟩; omega
  | succ n ih =>
    intro m
    simp only [descEnds, List.mem_cons, ih m]
    constructor
    · rintro (rfl | ⟨k, hk, rfl⟩)
      · exact ⟨n + 1, by omega, by omega⟩
      · exact ⟨k, by omega, rfl⟩
    · rintro ⟨k, hk, rfl⟩
      rcases Nat.lt_or_ge k (n + 1) with hlt | hge
      · exact Or.inr ⟨k, by omega, rfl⟩
      · exact Or.inl (by omega)

theorem descEnds_ne_nil (i : Nat) : ∀ r, descEnds i r ≠ [] := by
  intro r
  cases r <;> simp [descEnds]

theorem mem_descEnds_dropLast (i : Nat) :
    ∀ (r m : Nat), m ∈ (descEnds i r).dropLast ↔ ∃ k, 0 < k ∧ k ≤ r ∧ m = i + k := by
  intro r
  induction r with
  | zero =>
    intro m
    simp only [descEnds, List.dropLast_single, List.not_mem_nil, false_iff]
    rintro ⟨k, h1, h2, _⟩
    omega
  | succ n ih =>
    intro m
    have hne := descEnds_ne_nil i n
    rw [show descEnds i (n + 1) = (i + n + 1) :: descEnds i n from rfl]
    rw [List.dropLast_cons_of_ne_nil hne]
    simp only [List.mem_cons, ih m]
    constructor
    · rintro (rfl | ⟨k, hk0, hk, rfl⟩)
      · exact ⟨n + 1, by omega, by omega, by omega⟩
      · exact ⟨k, hk0, by omega, rfl⟩
    · rintro ⟨k, hk0, hk, rfl⟩
      rcases Nat.lt_or_ge k (n + 1) with hlt | hge
      · exact Or.inr ⟨k, hk0, by omega, rfl⟩
      · exact Or.inl (by omega)

theorem runRE_eps_inv {t : List Char} {i e : Nat} (h : e ∈ runRE .eps t i) : e = i := by
  simpa [runRE] using h

theorem runRE_bol_inv {t : List Char} {i e : Nat} (h : e ∈ runRE .bol t i) :
    e = i ∧ (i = 0 ∨ t.get? (i - 1) = some '\n') := by
  unfold runRE at h
  split at h
  · next hb =>
    simp at h
    simp only [atBol, Bool.or_eq_true, beq_iff_eq] at hb
    exact ⟨h, hb⟩
  · simp at h

theorem runRE_eol_inv {t : List Char} {i e : Nat} (h : e ∈ runRE .eol t i) :
    e = i ∧ (i = t.length ∨ t.get? i = some '\n') := by
  unfold runRE at h
  split at h
  · next hb =>
    simp at h
    simp only [atEol, Bool.or_eq_true, beq_iff_eq] at hb
    exact ⟨h, hb⟩
  · simp at h

theorem runRE_cls_inv {p : Char → Bool} {t : List Char} {i e : Nat}
    (h : e ∈ runRE (.cls p) t i) :
    e = i + 1 ∧ ∃ c, t.get? i = some c ∧ p c = true := by
  unfold runRE at h
  revert h
  cases hg : t.get? i with
  | none => simp
  | some c =>
    intro h
    dsimp only at h
    by_cases hp : p c = true
    · rw [if_pos hp] at h
      simp at h
      exact ⟨h, c, rfl, hp⟩
    · rw [if_neg hp] at h
      simp at h

theorem runRE_seq_inv {a b : RE} {t : List Char} {i e : Nat}
    (h : e ∈ runRE (.seq a b) t i) : ∃ m, m ∈ runRE a t i ∧ e ∈ runRE b t m := by
  unfold runRE at h
  exact List.mem_flatMap.mp h

theorem runRE_alt_inv {a b : RE} {t : List Char} {i e : Nat}
    (h : e ∈ runRE (.alt a b) t i) : e ∈ runRE a t i ∨ e ∈ runRE b t i := by
  unfold runRE at h
  exact List.mem_append.mp h

theorem runRE_opt_inv {a : RE} {t : List Char} {i e : Nat}
    (h : e ∈ runRE (.opt a) t i) : e ∈ runRE a t i ∨ e = i := by
  unfold runRE at h
  rcases List.mem_append.mp h with h1 | h1
  · exact Or.inl h1
  · simp at h1; exact Or.inr h1

theorem runRE_star_inv {p : Char → Bool} {t : List Char} {i e : Nat}
    (h : e ∈ runRE (.star p) t i) :
    i ≤ e ∧ ∀ j, i ≤ j → j < e → ∃ c, t.get? j = some c ∧ p c = true := by
  unfold runRE starEnds at h
  obtain ⟨k, hk, rfl⟩ := (mem_descEnds i _ _).mp h
  refine ⟨by omega, fun j hj1 hj2 => ?_⟩
  have := runLen_spec p t i (j - i) (by omega)
  rwa [show i + (j - i) = j by omega] at this

theorem runRE_plus_inv {p : Char → Bool} {t : List Char} {i e : Nat}
    (h : e ∈ runRE (.plus p) t i) :
    i < e ∧ ∀ j, i ≤ j → j < e → ∃ c, t.get? j = some c ∧ p c = true := by
  unfold runRE starEnds at h
  obtain ⟨k, hk0, hk, rfl⟩ := (mem_descEnds_dropLast i _ _).mp h
  refine ⟨by omega, fun j hj1 hj2 => ?_⟩
  have := runLen_spec p t i (j - i) (by omega)
  rwa [show i + (j - i) = j by omega] at this

theorem runRE_lit_inv {t : List Char} :
    ∀ (w : List Char) {i e : Nat}, e ∈ runRE (lit w) t i →
      e = i + w.length ∧
        ∀ j, j < w.length →
          ∃ c cw, t.get? (i + j) = some c ∧ w.get? j = some cw ∧ c.toLower = cw := by
  intro w
  induction w with
  | nil =>
    intro i e h
    refine ⟨by simpa using runRE_eps_inv h, fun j hj => by simp at hj⟩
  | cons cw ws ih =>
    intro i e h
    obtain ⟨m, hm, he⟩ := runRE_seq_inv h
    obtain ⟨rfl, c, hc, hp⟩ := runRE_cls_inv hm
    obtain ⟨rfl, hrest⟩ := ih he
    refine ⟨by simp; omega, fun j hj => ?_⟩
    cases j with
    | zero =>
      refine ⟨c, cw, by simpa using hc, rfl, ?_⟩
      simpa [ciIs] using hp
    | succ n =>
      obtain ⟨c', cw', h1, h2, h3⟩ := hrest n (by simpa using hj)
      exact ⟨c', cw', by rw [show i + (n + 1) = i + 1 + n by omega]; exact h1, by simpa using h2, h3⟩

/-! ## Construction lemmas and search specifications -/

theorem mem_runRE_seq {a b : RE} {t : List Char} {i m e : Nat}
    (h1 : m ∈ runRE a t i) (h2 : e ∈ runRE b t m) : e ∈ runRE (.seq a b) t i := by
  unfold runRE
  exact List.mem_flatMap.mpr ⟨m, h1, h2⟩

theorem mem_runRE_alt_left {a b : RE} {t : List Char} {i e : Nat}
    (h : e ∈ runRE a t i) : e ∈ runRE (.alt a b) t i := by
  unfold runRE
  exact List.mem_append_left _ h

theorem mem_runRE_alt_right {a b : RE} {t : List Char} {i e : Nat}
    (h : e ∈ runRE b t i) : e ∈ runRE (.alt a b) t i := by
  unfold runRE
  exact List.mem_append_right _ h

theorem mem_runRE_bol {t : List Char} {i : Nat}
    (h : i = 0 ∨ t.get? (i - 1) = some '\n') : i ∈ runRE .bol t i := by
  unfold runRE
  rw [if_pos]
  · exact List.mem_singleton.mpr rfl
  · simp only [atBol, Bool.or_eq_true, beq_iff_eq]
    exact h

theorem mem_runRE_eol {t : List Char} {i : Nat}
    (h : i = t.length ∨ t.get? i = some '\n') : i ∈ runRE .eol t i := by
  unfold runRE
  rw [if_pos]
  · exact List.mem_singleton.mpr rfl
  · simp only [atEol, Bool.or_eq_true, beq_iff_eq]
    exact h

theorem mem_runRE_cls {p : Char → Bool} {t : List Char} {i : Nat} {c : Char}
    (h : t.get? i = some c) (hp : p c = true) : (i + 1) ∈ runRE (.cls p) t i := by
  unfold runRE
  rw [h]
  dsimp only
  rw [if_pos hp]
  exact List.mem_singleton.mpr rfl

theorem mem_runRE_star {p : Char → Bool} {t : List Char} {i k : Nat}
    (h : ∀ j, j < k → ∃ c, t.get? (i + j) = some c ∧ p c = true) :
    (i + k) ∈ runRE (.star p) t i := by
  unfold runRE starEnds
  exact (mem_descEnds i _ _).mpr ⟨k, runLen_ge p t i k h, rfl⟩

theorem mem_runRE_plus {p : Char → Bool} {t : List Char} {i k : Nat} (hk : 0 < k)
    (h : ∀ j, j < k → ∃ c, t.get? (i + j) = some c ∧ p c = true) :
    (i + k) ∈ runRE (.plus p) t i := by
  unfold runRE starEnds
  exact (mem_descEnds_dropLast i _ _).mpr ⟨k, hk, runLen_ge p t i k h, rfl⟩

theorem mem_runRE_opt_skip {a : RE} {t : List Char} {i : Nat} : i ∈ runRE (.opt a) t i := by
  unfold runRE
  exact List.mem_append_right _ (List.mem_singleton.mpr rfl)

theorem mem_runRE_opt_take {a : RE} {t : List Char} {i e : Nat}
    (h : e ∈ runRE a t i) : e ∈ runRE (.opt a) t i := by
  unfold runRE
  exact List.mem_append_left _ h

theorem mem_runRE_eps {t : List Char} {i : Nat} : i ∈ runRE .eps t i :=
  List.mem_singleton.mpr rfl

theorem mem_runRE_lit {t : List Char} :
    ∀ (w : List Char) (i : Nat),
      (∀ j, j < w.length → ∃ c cw, t.get? (i + j) = some c ∧ w.get? j = some cw ∧
        c.toLower = cw) →
      (i + w.length) ∈ runRE (lit w) t i := by
  intro w
  induction w with
  | nil => intro i _; simpa using mem_runRE_eps
  | cons cw ws ih =>
    intro i h
    obtain ⟨c, cw2, h1, h2, h3⟩ := h 0 (by simp)
    simp only [List.get?_cons_zero, Option.some.injEq] at h2
    subst h2
    have hcls : (i + 1) ∈ runRE (.cls (ciIs cw)) t i := by
      refine mem_runRE_cls (by simpa using h1) ?_
      simp [ciIs, h3]
    have hrest : (i + 1 + ws.length) ∈ runRE (lit ws) t (i + 1) := by
      refine ih (i + 1) (fun j hj => ?_)
      obtain ⟨c', cw3, g1, g2, g3⟩ := h (j + 1) (by simpa using hj)
      exact ⟨c', cw3, by rwa [show i + (j + 1) = i + 1 + j by omega] at g1, by simpa using g2, g3⟩
    have hfin := mem_runRE_seq hcls hrest
    rwa [show i + 1 + ws.length = i + (cw :: ws).length by simp; omega] at hfin

theorem searchAux_some_spec (r : RE) (t : List Char) :
    ∀ (n i s e : Nat), searchAux r t n i = some (s, e) →
      i ≤ s ∧ s < i + n ∧ (runRE r t s).head? = some e ∧
        ∀ p, i ≤ p → p < s → runRE r t p = [] := by
  intro n
  induction n with
  | zero => intro i s e h; simp [searchAux] at h
  | succ m ih =>
    intro i s e h
    unfold searchAux at h
    revert h
    cases hh : (runRE r t i).head? with
    | some e' =>
      intro h
      simp only [Option.some.injEq, Prod.mk.injEq] at h
      obtain ⟨rfl, rfl⟩ := h
      exact ⟨Nat.le_refl _, by omega, hh, fun p h1 h2 => by omega⟩
    | none =>
      intro h
      obtain ⟨g1, g2, g3, g4⟩ := ih (i + 1) s e h
      refine ⟨by omega, by omega, g3, fun p h1 h2 => ?_⟩
      rcases Nat.eq_or_lt_of_le h1 with rfl | hlt
      · exact List.head?_eq_none_iff.mp hh
      · exact g4 p (by omega) h2

theorem searchAux_none_spec (r : RE) (t : List Char) :
    ∀ (n i : Nat), searchAux r t n i = none →
      ∀ p, i ≤ p → p < i + n → runRE r t p = [] := by
  intro n
  induction n with
  | zero => intro i _ p h1 h2; omega
  | succ m ih =>
    intro i h p h1 h2
    unfold searchAux at h
    revert h
    cases hh : (runRE r t i).head? with
    | some e' => intro h; simp at h
    | none =>
      intro h
      rcases Nat.eq_or_lt_of_le h1 with rfl | hlt
      · exact List.head?_eq_none_iff.mp hh
      · exact ih (i + 1) h p (by omega) (by omega)

theorem searchFrom_some_spec {r : RE} {t : List Char} {pos s e : Nat}
    (h : searchFrom r t pos = some (s, e)) :
    pos ≤ s ∧ (runRE r t s).head? = some e ∧
      ∀ p, pos ≤ p → p < s → runRE r t p = [] := by
  obtain ⟨g1, _, g3, g4⟩ := searchAux_some_spec r t _ pos s e h
  exact ⟨g1, g3, g4⟩

theorem searchFrom_none_spec {r : RE} {t : List Char} {pos : Nat}
    (h : searchFrom r t pos = none) :
    ∀ p, pos ≤ p → p ≤ t.length → runRE r t p = [] := by
  intro p h1 h2
  exact searchAux_none_spec r t _ pos h p h1 (by omega)

theorem head?_mem {l : List Nat} {e : Nat} (h : l.head? = some e) : e ∈ l := by
  cases l with
  | nil => simp at h
  | cons a as => simp at h; simp [h]

/-- Positions past the end of the text never match a `^`-anchored branch. -/
theorem bolseq_pos_le {X : RE} {t : List Char} {p e : Nat}
    (h : e ∈ runRE (.seq .bol X) t p) : p ≤ t.length := by
  obtain ⟨m, hm, _⟩ := runRE_seq_inv h
  obtain ⟨rfl, hb⟩ := runRE_bol_inv hm
  rcases hb with rfl | hb
  · omega
  · obtain ⟨hlt, -⟩ := List.get?_eq_some.mp hb
    omega

theorem claimsRE_pos_le {t : List Char} {p e : Nat} (h : e ∈ runRE claimsRE t p) :
    p ≤ t.length := by
  unfold claimsRE at h
  rcases runRE_alt_inv h with h1 | h1
  · exact bolseq_pos_le h1
  rcases runRE_alt_inv h1 with h2 | h2
  · exact bolseq_pos_le h2
  rcases runRE_alt_inv h2 with h3 | h3
  · exact bolseq_pos_le h3
  rcases runRE_alt_inv h3 with h4 | h4
  · exact bolseq_pos_le h4
  · exact bolseq_pos_le h4

theorem abstractRE_pos_le {t : List Char} {p e : Nat} (h : e ∈ runRE abstractRE t p) :
    p ≤ t.length := by
  unfold abstractRE at h
  rcases runRE_alt_inv h with h1 | h1
  · exact bolseq_pos_le h1
  rcases runRE_alt_inv h1 with h2 | h2
  · exact bolseq_pos_le h2
  rcases runRE_alt_inv h2 with h3 | h3
  · exact bolseq_pos_le h3
  rcases runRE_alt_inv h3 with h4 | h4
  · exact bolseq_pos_le h4
  · exact bolseq_pos_le h4

theorem sectionRE_pos_le {t : List Char} {p e : Nat} (h : e ∈ runRE sectionRE t p) :
    p ≤ t.length :=
  bolseq_pos_le h

theorem paraRE_pos_le {t : List Char} {p e : Nat} (h : e ∈ runRE paraRE t p) :
    p ≤ t.length := by
  obtain ⟨m, hm, _⟩ := runRE_seq_inv h
  obtain ⟨rfl, c, hc, _⟩ := runRE_cls_inv hm
  obtain ⟨hlt, -⟩ := List.get?_eq_some.mp hc
  omega

/-! ## C5: the abstract end-position cascade (corrected) -/

/-- The leftmost match of `r` in `t` at or after `pos` starts at `s`. -/
def MatchStartAtFrom (r : RE) (t : List Char) (pos s : Nat) : Prop :=
  pos ≤ s ∧ runRE r t s ≠ [] ∧ ∀ p, p < s → pos ≤ p → runRE r t p = []

instance (r : RE) (t : List Char) (pos s : Nat) : Decidable (MatchStartAtFrom r t pos s) := by
  unfold MatchStartAtFrom
  infer_instance

theorem searchFrom_match_start {r : RE} {t : List Char} {pos s e : Nat}
    (h : searchFrom r t pos = some (s, e)) : MatchStartAtFrom r t pos s := by
  obtain ⟨g1, g2, g3⟩ := searchFrom_some_spec h
  exact ⟨g1, fun hnil => by simp [hnil] at g2, fun p h1 h2 => g3 p h2 h1⟩

theorem match_start_unique {r : RE} {t : List Char} {pos s s' : Nat}
    (h : MatchStartAtFrom r t pos s) (h' : MatchStartAtFrom r t pos s') : s = s' := by
  obtain ⟨a1, a2, a3⟩ := h
  obtain ⟨b1, b2, b3⟩ := h'
  rcases Nat.lt_trichotomy s s' with hlt | heq | hgt
  · exact absurd (b3 s hlt a1) a2
  · exact heq
  · exact absurd (a3 s' hgt b1) b2

/-- The claim-side reading of clause (b): the start of the next LINE (in the
whole text) that consists exactly of one of the section words.  Declared to
state the counterexample; the code instead re-anchors its search at the start
of the slice `text[abstract_start:]`. -/
def sectionWordLine (l : List Char) : Bool :=
  let core := (trimR l).map Char.toLower
  core == str "description" || core == str "background" || core == str "summary" ||
    core == str "detailed description" || core == str "brief description"

def isBolAt (t : List Char) (q : Nat) : Bool :=
  q == 0 || t.get? (q - 1) == some '\n'

def lineAt (t : List Char) (q : Nat) : List Char :=
  (t.drop q).takeWhile (· ≠ '\n')

def sectionScan (t : List Char) : Nat → Nat → Option Nat
  | 0, _ => none
  | f + 1, q =>
    if isBolAt t q && sectionWordLine (lineAt t q) then some q
    else sectionScan t f (q + 1)

/-- First position `q ≥ i` that starts a line consisting exactly of a section
word — the claim's description of clause (b). -/
def claimSectionLineStart (t : List Char) (i : Nat) : Option Nat :=
  sectionScan t (t.length + 1 - i) i

/-- C5 counterexample: on `"Abstract description\nbackground\nmore"` the claim's
clause (b) would end the abstract at position 21 (the start of the line that is
exactly `"background"`), but the code searches the slice `text[9:]` with `^`
re-anchored at the slice start, matches `"description"` at offset 0, and ends
the abstract at position 9 — yielding no abstract at all. -/
theorem C5_reanchored_section_counterexample :
    reSearch abstractRE (str "Abstract description\nbackground\nmore") = some (0, 9) ∧
    searchFrom claimsRE (str "Abstract description\nbackground\nmore") 9 = none ∧
    claimSectionLineStart (str "Abstract description\nbackground\nmore") 9 = some 21 ∧
    abstractEnd (str "Abstract description\nbackground\nmore") 9 = 9 ∧
    extractAbstract (str "Abstract description\nbackground\nmore")
      = (str "Abstract description\nbackground\nmore", none) := by
  refine ⟨by decide, by decide, by decide, by decide, by decide⟩

/-- C5 (amended): when the abstract extractor has found an abstract header with
match end `me`, the abstract's end is: (a) the start of the leftmost claims
header match at or after `me` if one exists, else (b) `me` plus the offset of
the leftmost section-header-pattern match in the remainder `t[me:]`, with the
pattern's `^` re-anchored at the start of the remainder, else (c) `me` plus the
offset of the leftmost paragraph-break match in the remainder when that offset
is less than 500, else the end of the text, else (d) the end of the text. -/
theorem C5_abstract_end_cascade (t : List Char) (ms me : Nat)
    (_hfound : reSearch abstractRE t = some (ms, me)) :
    (∀ cs, MatchStartAtFrom claimsRE t me cs → abstractEnd t me = cs) ∧
    ((¬ ∃ cs, MatchStartAtFrom claimsRE t me cs) →
      (∀ hs, MatchStartAtFrom sectionRE (t.drop me) 0 hs → abstractEnd t me = me + hs) ∧
      ((¬ ∃ hs, MatchStartAtFrom sectionRE (t.drop me) 0 hs) →
        (∀ ps, MatchStartAtFrom paraRE (t.drop me) 0 ps →
          abstractEnd t me = if ps < 500 then me + ps else t.length) ∧
        ((¬ ∃ ps, MatchStartAtFrom paraRE (t.drop me) 0 ps) →
          abstractEnd t me = t.length))) := by
  unfold abstractEnd
  cases hcl : searchFrom claimsRE t me with
  | some pr =>
    obtain ⟨cs0, e0⟩ := pr
    have hm0 := searchFrom_match_start hcl
    constructor
    · intro cs hcs
      exact (match_start_unique hm0 hcs)
    · intro hno
      exact absurd ⟨cs0, hm0⟩ hno
  | none =>
    have hnone : ¬ ∃ cs, MatchStartAtFrom claimsRE t me cs := by
      rintro ⟨cs, h1, h2, _⟩
      obtain ⟨e, he⟩ := List.exists_mem_of_ne_nil _ h2
      exact h2 (searchFrom_none_spec hcl cs h1 (claimsRE_pos_le he))
    constructor
    · intro cs hcs
      exact absurd ⟨cs, hcs⟩ hnone
    intro _
    cases hsec : reSearch sectionRE (t.drop me) with
    | some pr =>
      obtain ⟨hs0, e0⟩ := pr
      have hm0 := searchFrom_match_start hsec
      constructor
      · intro hs hhs
        rw [match_start_unique hm0 hhs]
      · intro hno
        exact absurd ⟨hs0, hm0⟩ hno
    | none =>
      have hnone2 : ¬ ∃ hs, MatchStartAtFrom sectionRE (t.drop me) 0 hs := by
        rintro ⟨hs, h1, h2, _⟩
        obtain ⟨e, he⟩ := List.exists_mem_of_ne_nil _ h2
        exact h2 (searchFrom_none_spec hsec hs h1 (sectionRE_pos_le he))
      constructor
      · intro hs hhs
        exact absurd ⟨hs, hhs⟩ hnone2
      intro _
      cases hpar : reSearch paraRE (t.drop me) with
      | some pr =>
        obtain ⟨ps0, e0⟩ := pr
        have hm0 := searchFrom_match_start hpar
        constructor
        · intro ps hps
          rw [match_start_unique hm0 hps]
        · intro hno
          exact absurd ⟨ps0, hm0⟩ hno
      | none =>
        have hnone3 : ¬ ∃ ps, MatchStartAtFrom paraRE (t.drop me) 0 ps := by
          rintro ⟨ps, h1, h2, _⟩
          obtain ⟨e, he⟩ := List.exists_mem_of_ne_nil _ h2
          exact h2 (searchFrom_none_spec hpar ps h1 (paraRE_pos_le he))
        exact ⟨fun ps hps => absurd ⟨ps, hps⟩ hnone3, fun _ => rfl⟩

/-- C5 witness. -/
theorem C5_abstract_end_witness :
    abstractEnd (str "Abstract\nA device.\n\nClaims\n1. X.") 8 = 19 :=
  (C5_abstract_end_cascade (str "Abstract\nA device.\n\nClaims\n1. X.") 0 8 (by decide)).1
    19 (by decide)

/-! ## C3 groundwork: constructing matches at a line -/

/-- The window of `t` starting at `i` reads exactly `x`. -/
def sliceAt (t : List Char) (i : Nat) (x : List Char) : Prop :=
  ∀ j, j < x.length → t.get? (i + j) = x.get? j

theorem sliceAt_of_eq {t : List Char} {i : Nat} {x : List Char} (pre suf : List Char)
    (ht : t = pre ++ x ++ suf) (hi : i = pre.length) : sliceAt t i x := by
  subst ht hi
  intro j hj
  rw [List.append_assoc, List.get?_append_right (by omega), List.get?_append (by omega)]
  congr 1
  omega

theorem sliceAt_split {t : List Char} {i : Nat} {x y : List Char}
    (h : sliceAt t i (x ++ y)) : sliceAt t i x ∧ sliceAt t (i + x.length) y := by
  constructor
  · intro j hj
    rw [h j (by simp; omega), List.get?_append hj]
  · intro j hj
    rw [show i + x.length + j = i + (x.length + j) by omega,
      h (x.length + j) (by simp; omega), List.get?_append_right (by omega)]
    congr 1
    omega

theorem star_consume {t : List Char} {i : Nat} {x : List Char}
    (hsl : sliceAt t i x) (hws : ∀ c ∈ x, isWs c = true) :
    (i + x.length) ∈ runRE wsStar t i := by
  refine mem_runRE_star (fun j hj => ?_)
  cases hg : x.get? j with
  | none => exact absurd (List.get?_eq_none.mp hg) (by omega)
  | some c =>
    exact ⟨c, by rw [hsl j hj, hg], hws c (List.get?_mem hg)⟩

theorem plus_consume {t : List Char} {i : Nat} {x : List Char} (hne : x ≠ [])
    (hsl : sliceAt t i x) (hws : ∀ c ∈ x, isWs c = true) :
    (i + x.length) ∈ runRE wsPlus t i := by
  refine mem_runRE_plus ?_ (fun j hj => ?_)
  · cases x with
    | nil => exact absurd rfl hne
    | cons c cs => simp
  cases hg : x.get? j with
  | none => exact absurd (List.get?_eq_none.mp hg) (by omega)
  | some c =>
    exact ⟨c, by rw [hsl j hj, hg], hws c (List.get?_mem hg)⟩

theorem lit_consume {t : List Char} {i : Nat} {u w : List Char}
    (hsl : sliceAt t i u) (hlc : u.map Char.toLower = w) :
    (i + u.length) ∈ runRE (lit w) t i := by
  have hlen : u.length = w.length := by rw [← hlc, List.length_map]
  have hmem : (i + w.length) ∈ runRE (lit w) t i := by
    refine mem_runRE_lit w i (fun j hj => ?_)
    cases hg : u.get? j with
    | none => exact absurd (List.get?_eq_none.mp hg) (by omega)
    | some c =>
      refine ⟨c, c.toLower, by rw [hsl j (by omega), hg], ?_, rfl⟩
      rw [← hlc, List.get?_map, hg]
      rfl
  rwa [hlen]

theorem bol_of_boundary {pre r : List Char}
    (h : pre = [] ∨ ∃ p0, pre = p0 ++ ['\n']) :
    pre.length ∈ runRE .bol (pre ++ r) pre.length := by
  refine mem_runRE_bol ?_
  rcases h with rfl | ⟨p0, rfl⟩
  · exact Or.inl rfl
  · right
    rw [List.get?_append (by simp)]
    simp

theorem eol_of_boundary {u v : List Char}
    (h : v = [] ∨ v.head? = some '\n') :
    u.length ∈ runRE .eol (u ++ v) u.length := by
  refine mem_runRE_eol ?_
  rcases h with rfl | hh
  · simp
  · right
    rw [List.get?_append_right (by omega)]
    cases v with
    | nil => simp at hh
    | cons c cs => simp at hh; simp [hh]

/-- A line `a ++ u ++ su ++ b` (optional whitespace, a case variant of
`claim` with optional case variant of `s`, optional whitespace), preceded by
nothing or a newline and followed by nothing or a newline, matches branch
`^\s*claims?\s*$` at the line start. -/
theorem claimsB1_construct (pre a u su b post : List Char)
    (hpre : pre = [] ∨ ∃ p0, pre = p0 ++ ['\n'])
    (hpost : post = [] ∨ post.head? = some '\n')
    (ha : ∀ c ∈ a, isWs c = true) (hb : ∀ c ∈ b, isWs c = true)
    (hu : u.map Char.toLower = str "claim")
    (hsu : su = [] ∨ ∃ sc, su = [sc] ∧ sc.toLower = 's') :
    runRE claimsB1 (pre ++ (a ++ (u ++ (su ++ (b ++ post))))) pre.length ≠ [] := by
  have hbol := bol_of_boundary (r := a ++ (u ++ (su ++ (b ++ post)))) hpre
  have hsa : sliceAt (pre ++ (a ++ (u ++ (su ++ (b ++ post))))) pre.length a :=
    sliceAt_of_eq pre (u ++ (su ++ (b ++ post))) (by simp) rfl
  have hstar1 := star_consume hsa ha
  have hsu2 : sliceAt (pre ++ (a ++ (u ++ (su ++ (b ++ post))))) (pre.length + a.length) u :=
    sliceAt_of_eq (pre ++ a) (su ++ (b ++ post)) (by simp) (by simp)
  have hlit := lit_consume hsu2 hu
  have hsb : sliceAt (pre ++ (a ++ (u ++ (su ++ (b ++ post)))))
      (pre.length + a.length + u.length + su.length) b :=
    sliceAt_of_eq (pre ++ (a ++ (u ++ su))) post (by simp) (by simp; omega)
  have hstarb := star_consume hsb hb
  have heol : (pre.length + a.length + u.length + su.length + b.length) ∈
      runRE .eol (pre ++ (a ++ (u ++ (su ++ (b ++ post)))))
        (pre.length + a.length + u.length + su.length + b.length) := by
    have h0 := eol_of_boundary (u := pre ++ (a ++ (u ++ (su ++ b)))) (v := post) hpost
    have hT : (pre ++ (a ++ (u ++ (su ++ b)))) ++ post
        = pre ++ (a ++ (u ++ (su ++ (b ++ post)))) := by simp
    have hX : (pre ++ (a ++ (u ++ (su ++ b)))).length
        = pre.length + a.length + u.length + su.length + b.length := by simp; omega
    rwa [hT, hX] at h0
  have hopt : (pre.length + a.length + u.length + su.length) ∈
      runRE (.opt (.cls (ciIs 's'))) (pre ++ (a ++ (u ++ (su ++ (b ++ post)))))
        (pre.length + a.length + u.length) := by
    rcases hsu with rfl | ⟨sc, rfl, hsc⟩
    · simpa using mem_runRE_opt_skip
    · have hss : sliceAt (pre ++ (a ++ (u ++ ([sc] ++ (b ++ post)))))
          (pre.length + a.length + u.length) [sc] :=
        sliceAt_of_eq (pre ++ (a ++ u)) (b ++ post) (by simp) (by simp; omega)
      have hc := mem_runRE_cls (p := ciIs 's') (by simpa using hss 0 (by simp))
        (by simp [ciIs, hsc])
      simpa using mem_runRE_opt_take hc
  refine List.ne_nil_of_mem (mem_runRE_seq hbol (mem_runRE_seq hstar1
    (mem_runRE_seq ?_ (mem_runRE_seq hopt (mem_runRE_seq hstarb heol)))))
  exact hlit

/-- A line `a ++ u1 ++ g ++ u2 ++ pc ++ b` (case variant of `i claim` with a
nonempty whitespace gap and optional trailing `:`/`.`) matches `^\s*i\s+claim\s*[:\.]?\s*$`. -/
theorem claimsB4_construct (pre a u1 g u2 pc b post : List Char)
    (hpre : pre = [] ∨ ∃ p0, pre = p0 ++ ['\n'])
    (hpost : post = [] ∨ post.head? = some '\n')
    (ha : ∀ c ∈ a, isWs c = true) (hb : ∀ c ∈ b, isWs c = true)
    (hg : g ≠ []) (hgw : ∀ c ∈ g, isWs c = true)
    (hu1 : u1.map Char.toLower = str "i") (hu2 : u2.map Char.toLower = str "claim")
    (hpc : pc = [] ∨ ∃ c, pc = [c] ∧ colonDot c = true) :
    runRE claimsB4 (pre ++ (a ++ (u1 ++ (g ++ (u2 ++ (pc ++ (b ++ post)))))))
      pre.length ≠ [] := by
  have hbol := bol_of_boundary (r := a ++ (u1 ++ (g ++ (u2 ++ (pc ++ (b ++ post)))))) hpre
  have hsa : sliceAt (pre ++ (a ++ (u1 ++ (g ++ (u2 ++ (pc ++ (b ++ post)))))))
      pre.length a :=
    sliceAt_of_eq pre (u1 ++ (g ++ (u2 ++ (pc ++ (b ++ post))))) (by simp) rfl
  have hstar1 := star_consume hsa ha
  have hs1 : sliceAt (pre ++ (a ++ (u1 ++ (g ++ (u2 ++ (pc ++ (b ++ post)))))))
      (pre.length + a.length) u1 :=
    sliceAt_of_eq (pre ++ a) (g ++ (u2 ++ (pc ++ (b ++ post)))) (by simp) (by simp)
  have hlit1 := lit_consume hs1 hu1
  have hsg : sliceAt (pre ++ (a ++ (u1 ++ (g ++ (u2 ++ (pc ++ (b ++ post)))))))
      (pre.length + a.length + u1.length) g :=
    sliceAt_of_eq (pre ++ (a ++ u1)) (u2 ++ (pc ++ (b ++ post))) (by simp) (by simp; omega)
  have hplus := plus_consume hg hsg hgw
  have hs2 : sliceAt (pre ++ (a ++ (u1 ++ (g ++ (u2 ++ (pc ++ (b ++ post)))))))
      (pre.length + a.length + u1.length + g.length) u2 :=
    sliceAt_of_eq (pre ++ (a ++ (u1 ++ g))) (pc ++ (b ++ post)) (by simp) (by simp; omega)
  have hlit2 := lit_consume hs2 hu2
  have hstar0 : (pre.length + a.length + u1.length + g.length + u2.length) ∈
      runRE wsStar (pre ++ (a ++ (u1 ++ (g ++ (u2 ++ (pc ++ (b ++ post)))))))
        (pre.length + a.length + u1.length + g.length + u2.length) := by
    have := mem_runRE_star (p := isWs)
      (t := pre ++ (a ++ (u1 ++ (g ++ (u2 ++ (pc ++ (b ++ post)))))))
      (i := pre.length + a.length + u1.length + g.length + u2.length) (k := 0)
      (fun j hj => by omega)
    simpa using this
  have hopt : (pre.length + a.length + u1.length + g.length + u2.length + pc.length) ∈
      runRE (.opt (.cls colonDot)) (pre ++ (a ++ (u1 ++ (g ++ (u2 ++ (pc ++ (b ++ post)))))))
        (pre.length + a.length + u1.length + g.length + u2.length) := by
    rcases hpc with rfl | ⟨c, rfl, hc⟩
    · simpa using mem_runRE_opt_skip
    · have hss : sliceAt (pre ++ (a ++ (u1 ++ (g ++ (u2 ++ ([c] ++ (b ++ post)))))))
          (pre.length + a.length + u1.length + g.length + u2.length) [c] :=
        sliceAt_of_eq (pre ++ (a ++ (u1 ++ (g ++ u2)))) (b ++ post) (by simp) (by simp; omega)
      have hcm := mem_runRE_cls (p := colonDot) (by simpa using hss 0 (by simp)) hc
      simpa using mem_runRE_opt_take hcm
  have hsb : sliceAt (pre ++ (a ++ (u1 ++ (g ++ (u2 ++ (pc ++ (b ++ post)))))))
      (pre.length + a.length + u1.length + g.length + u2.length + pc.length) b :=
    sliceAt_of_eq (pre ++ (a ++ (u1 ++ (g ++ (u2 ++ pc))))) post (by simp) (by simp; omega)
  have hstarb := star_consume hsb hb
  have heol : (pre.length + a.length + u1.length + g.length + u2.length + pc.length + b.length) ∈
      runRE .eol (pre ++ (a ++ (u1 ++ (g ++ (u2 ++ (pc ++ (b ++ post)))))))
        (pre.length + a.length + u1.length + g.length + u2.length + pc.length + b.length) := by
    have h0 := eol_of_boundary (u := pre ++ (a ++ (u1 ++ (g ++ (u2 ++ (pc ++ b))))))
      (v := post) hpost
    have hT : (pre ++ (a ++ (u1 ++ (g ++ (u2 ++ (pc ++ b)))))) ++ post
        = pre ++ (a ++ (u1 ++ (g ++ (u2 ++ (pc ++ (b ++ post)))))) := by simp
    have hX : (pre ++ (a ++ (u1 ++ (g ++ (u2 ++ (pc ++ b)))))).length
        = pre.length + a.length + u1.length + g.length + u2.length + pc.length + b.length := by
      simp
      omega
    rwa [hT, hX] at h0
  exact List.ne_nil_of_mem (mem_runRE_seq hbol (mem_runRE_seq hstar1 (mem_runRE_seq hlit1
    (mem_runRE_seq hplus (mem_runRE_seq hlit2 (mem_runRE_seq hstar0
      (mem_runRE_seq hopt (mem_runRE_seq hstarb heol))))))))

/-- A line `a ++ u1 ++ g ++ u2 ++ pc ++ b` (case variant of `we claim` with a
nonempty whitespace gap and optional trailing `:`/`.`) matches `^\s*we\s+claim\s*[:\.]?\s*$`. -/
theorem claimsB5_construct (pre a u1 g u2 pc b post : List Char)
    (hpre : pre = [] ∨ ∃ p0, pre = p0 ++ ['\n'])
    (hpost : post = [] ∨ post.head? = some '\n')
    (ha : ∀ c ∈ a, isWs c = true) (hb : ∀ c ∈ b, isWs c = true)
    (hg : g ≠ []) (hgw : ∀ c ∈ g, isWs c = true)
    (hu1 : u1.map Char.toLower = str "we") (hu2 : u2.map Char.toLower = str "claim")
    (hpc : pc = [] ∨ ∃ c, pc = [c] ∧ colonDot c = true) :
    runRE claimsB5 (pre ++ (a ++ (u1 ++ (g ++ (u2 ++ (pc ++ (b ++ post)))))))
      pre.length ≠ [] := by
  have hbol := bol_of_boundary (r := a ++ (u1 ++ (g ++ (u2 ++ (pc ++ (b ++ post)))))) hpre
  have hsa : sliceAt (pre ++ (a ++ (u1 ++ (g ++ (u2 ++ (pc ++ (b ++ post)))))))
      pre.length a :=
    sliceAt_of_eq pre (u1 ++ (g ++ (u2 ++ (pc ++ (b ++ post))))) (by simp) rfl
  have hstar1 := star_consume hsa ha
  have hs1 : sliceAt (pre ++ (a ++ (u1 ++ (g ++ (u2 ++ (pc ++ (b ++ post)))))))
      (pre.length + a.length) u1 :=
    sliceAt_of_eq (pre ++ a) (g ++ (u2 ++ (pc ++ (b ++ post)))) (by simp) (by simp)
  have hlit1 := lit_consume hs1 hu1
  have hsg : sliceAt (pre ++ (a ++ (u1 ++ (g ++ (u2 ++ (pc ++ (b ++ post)))))))
      (pre.length + a.length + u1.length) g :=
    sliceAt_of_eq (pre ++ (a ++ u1)) (u2 ++ (pc ++ (b ++ post))) (by simp) (by simp; omega)
  have hplus := plus_consume hg hsg hgw
  have hs2 : sliceAt (pre ++ (a ++ (u1 ++ (g ++ (u2 ++ (pc ++ (b ++ post)))))))
      (pre.length + a.length + u1.length + g.length) u2 :=
    sliceAt_of_eq (pre ++ (a ++ (u1 ++ g))) (pc ++ (b ++ post)) (by simp) (by simp; omega)
  have hlit2 := lit_consume hs2 hu2
  have hstar0 : (pre.length + a.length + u1.length + g.length + u2.length) ∈
      runRE wsStar (pre ++ (a ++ (u1 ++ (g ++ (u2 ++ (pc ++ (b ++ post)))))))
        (pre.length + a.length + u1.length + g.length + u2.length) := by
    have := mem_runRE_star (p := isWs)
      (t := pre ++ (a ++ (u1 ++ (g ++ (u2 ++ (pc ++ (b ++ post)))))))
      (i := pre.length + a.length + u1.length + g.length + u2.length) (k := 0)
      (fun j hj => by omega)
    simpa using this
  have hopt : (pre.length + a.length + u1.length + g.length + u2.length + pc.length) ∈
      runRE (.opt (.cls colonDot)) (pre ++ (a ++ (u1 ++ (g ++ (u2 ++ (pc ++ (b ++ post)))))))
        (pre.length + a.length + u1.length + g.length + u2.length) := by
    rcases hpc with rfl | ⟨c, rfl, hc⟩
    · simpa using mem_runRE_opt_skip
    · have hss : sliceAt (pre ++ (a ++ (u1 ++ (g ++ (u2 ++ ([c] ++ (b ++ post)))))))
          (pre.length + a.length + u1.length + g.length + u2.length) [c] :=
        sliceAt_of_eq (pre ++ (a ++ (u1 ++ (g ++ u2)))) (b ++ post) (by simp) (by simp; omega)
      have hcm := mem_runRE_cls (p := colonDot) (by simpa using hss 0 (by simp)) hc
      simpa using mem_runRE_opt_take hcm
  have hsb : sliceAt (pre ++ (a ++ (u1 ++ (g ++ (u2 ++ (pc ++ (b ++ post)))))))
      (pre.length + a.length + u1.length + g.length + u2.length + pc.length) b :=
    sliceAt_of_eq (pre ++ (a ++ (u1 ++ (g ++ (u2 ++ pc))))) post (by simp) (by simp; omega)
  have hstarb := star_consume hsb hb
  have heol : (pre.length + a.length + u1.length + g.length + u2.length + pc.length + b.length) ∈
      runRE .eol (pre ++ (a ++ (u1 ++ (g ++ (u2 ++ (pc ++ (b ++ post)))))))
        (pre.length + a.length + u1.length + g.length + u2.length + pc.length + b.length) := by
    have h0 := eol_of_boundary (u := pre ++ (a ++ (u1 ++ (g ++ (u2 ++ (pc ++ b))))))
      (v := post) hpost
    have hT : (pre ++ (a ++ (u1 ++ (g ++ (u2 ++ (pc ++ b)))))) ++ post
        = pre ++ (a ++ (u1 ++ (g ++ (u2 ++ (pc ++ (b ++ post)))))) := by simp
    have hX : (pre ++ (a ++ (u1 ++ (g ++ (u2 ++ (pc ++ b)))))).length
        = pre.length + a.length + u1.length + g.length + u2.length + pc.length + b.length := by
      simp
      omega
    rwa [hT, hX] at h0
  exact List.ne_nil_of_mem (mem_runRE_seq hbol (mem_runRE_seq hstar1 (mem_runRE_seq hlit1
    (mem_runRE_seq hplus (mem_runRE_seq hlit2 (mem_runRE_seq hstar0
      (mem_runRE_seq hopt (mem_runRE_seq hstarb heol))))))))

/-- A line `a ++ u1 ++ g1 ++ u2 ++ g2 ++ u3 ++ g3 ++ v ++ pc ++ b` — a case
variant of `what is claimed`, optionally followed by whitespace and a case
variant of `is`, with optional trailing `:`/`.` — matches
`^\s*what\s+is\s+claimed\s*(is)?\s*[:\.]?\s*$`. -/
theorem claimsB2_construct (pre a u1 g1 u2 g2 u3 g3 v pc b post : List Char)
    (hpre : pre = [] ∨ ∃ p0, pre = p0 ++ ['\n'])
    (hpost : post = [] ∨ post.head? = some '\n')
    (ha : ∀ c ∈ a, isWs c = true) (hb : ∀ c ∈ b, isWs c = true)
    (hg1 : g1 ≠ []) (hg1w : ∀ c ∈ g1, isWs c = true)
    (hg2 : g2 ≠ []) (hg2w : ∀ c ∈ g2, isWs c = true)
    (hg3w : ∀ c ∈ g3, isWs c = true)
    (hu1 : u1.map Char.toLower = str "what") (hu2 : u2.map Char.toLower = str "is")
    (hu3 : u3.map Char.toLower = str "claimed")
    (hv : v = [] ∨ v.map Char.toLower = str "is")
    (hpc : pc = [] ∨ ∃ c, pc = [c] ∧ colonDot c = true) :
    runRE claimsB2
      (pre ++ (a ++ (u1 ++ (g1 ++ (u2 ++ (g2 ++ (u3 ++ (g3 ++ (v ++ (pc ++ (b ++ post)))))))))))
      pre.length ≠ [] := by
  have hbol := bol_of_boundary
    (r := a ++ (u1 ++ (g1 ++ (u2 ++ (g2 ++ (u3 ++ (g3 ++ (v ++ (pc ++ (b ++ post)))))))))) hpre
  have hsa : sliceAt
      (pre ++ (a ++ (u1 ++ (g1 ++ (u2 ++ (g2 ++ (u3 ++ (g3 ++ (v ++ (pc ++ (b ++ post)))))))))))
      pre.length a :=
    sliceAt_of_eq pre (u1 ++ (g1 ++ (u2 ++ (g2 ++ (u3 ++ (g3 ++ (v ++ (pc ++ (b ++ post)))))))))
      (by simp) rfl
  have hstar1 := star_consume hsa ha
  have hs1 : sliceAt
      (pre ++ (a ++ (u1 ++ (g1 ++ (u2 ++ (g2 ++ (u3 ++ (g3 ++ (v ++ (pc ++ (b ++ post)))))))))))
      (pre.length + a.length) u1 :=
    sliceAt_of_eq (pre ++ a) (g1 ++ (u2 ++ (g2 ++ (u3 ++ (g3 ++ (v ++ (pc ++ (b ++ post))))))))
      (by simp) (by simp)
  have hlit1 := lit_consume hs1 hu1
  have hsg1 : sliceAt
      (pre ++ (a ++ (u1 ++ (g1 ++ (u2 ++ (g2 ++ (u3 ++ (g3 ++ (v ++ (pc ++ (b ++ post)))))))))))
      (pre.length + a.length + u1.length) g1 :=
    sliceAt_of_eq (pre ++ (a ++ u1)) (u2 ++ (g2 ++ (u3 ++ (g3 ++ (v ++ (pc ++ (b ++ post)))))))
      (by simp) (by simp; omega)
  have hplus1 := plus_consume hg1 hsg1 hg1w
  have hs2 : sliceAt
      (pre ++ (a ++ (u1 ++ (g1 ++ (u2 ++ (g2 ++ (u3 ++ (g3 ++ (v ++ (pc ++ (b ++ post)))))))))))
      (pre.length + a.length + u1.length + g1.length) u2 :=
    sliceAt_of_eq (pre ++ (a ++ (u1 ++ g1))) (g2 ++ (u3 ++ (g3 ++ (v ++ (pc ++ (b ++ post))))))
      (by simp) (by simp; omega)
  have hlit2 := lit_consume hs2 hu2
  have hsg2 : sliceAt
      (pre ++ (a ++ (u1 ++ (g1 ++ (u2 ++ (g2 ++ (u3 ++ (g3 ++ (v ++ (pc ++ (b ++ post)))))))))))
      (pre.length + a.length + u1.length + g1.length + u2.length) g2 :=
    sliceAt_of_eq (pre ++ (a ++ (u1 ++ (g1 ++ u2)))) (u3 ++ (g3 ++ (v ++ (pc ++ (b ++ post)))))
      (by simp) (by simp; omega)
  have hplus2 := plus_consume hg2 hsg2 hg2w
  have hs3 : sliceAt
      (pre ++ (a ++ (u1 ++ (g1 ++ (u2 ++ (g2 ++ (u3 ++ (g3 ++ (v ++ (pc ++ (b ++ post)))))))))))
      (pre.length + a.length + u1.length + g1.length + u2.length + g2.length) u3 :=
    sliceAt_of_eq (pre ++ (a ++ (u1 ++ (g1 ++ (u2 ++ g2))))) (g3 ++ (v ++ (pc ++ (b ++ post))))
      (by simp) (by simp; omega)
  have hlit3 := lit_consume hs3 hu3
  have hsg3 : sliceAt
      (pre ++ (a ++ (u1 ++ (g1 ++ (u2 ++ (g2 ++ (u3 ++ (g3 ++ (v ++ (pc ++ (b ++ post)))))))))))
      (pre.length + a.length + u1.length + g1.length + u2.length + g2.length + u3.length) g3 :=
    sliceAt_of_eq (pre ++ (a ++ (u1 ++ (g1 ++ (u2 ++ (g2 ++ u3)))))) (v ++ (pc ++ (b ++ post)))
      (by simp) (by simp; omega)
  have hstar3 := star_consume hsg3 hg3w
  have hoptv : (pre.length + a.length + u1.length + g1.length + u2.length + g2.length
        + u3.length + g3.length + v.length) ∈
      runRE (.opt (lit (str "is")))
        (pre ++ (a ++ (u1 ++ (g1 ++ (u2 ++ (g2 ++ (u3 ++ (g3 ++ (v ++ (pc ++ (b ++ post)))))))))))
        (pre.length + a.length + u1.length + g1.length + u2.length + g2.length
          + u3.length + g3.length) := by
    rcases hv with rfl | hlv
    · simpa using mem_runRE_opt_skip
    · have hsv : sliceAt
          (pre ++ (a ++ (u1 ++ (g1 ++ (u2 ++ (g2 ++ (u3 ++ (g3 ++ (v ++ (pc ++ (b ++ post)))))))))))
          (pre.length + a.length + u1.length + g1.length + u2.length + g2.length
            + u3.length + g3.length) v :=
        sliceAt_of_eq (pre ++ (a ++ (u1 ++ (g1 ++ (u2 ++ (g2 ++ (u3 ++ g3))))))) (pc ++ (b ++ post))
          (by simp) (by simp; omega)
      exact mem_runRE_opt_take (lit_consume hsv hlv)
  have hstar0 : (pre.length + a.length + u1.length + g1.length + u2.length + g2.length
        + u3.length + g3.length + v.length) ∈
      runRE wsStar
        (pre ++ (a ++ (u1 ++ (g1 ++ (u2 ++ (g2 ++ (u3 ++ (g3 ++ (v ++ (pc ++ (b ++ post)))))))))))
        (pre.length + a.length + u1.length + g1.length + u2.length + g2.length
          + u3.length + g3.length + v.length) := by
    have := mem_runRE_star (p := isWs)
      (t := pre ++ (a ++ (u1 ++ (g1 ++ (u2 ++ (g2 ++ (u3 ++ (g3 ++ (v ++ (pc ++ (b ++ post)))))))))))
      (i := pre.length + a.length + u1.length + g1.length + u2.length + g2.length
        + u3.length + g3.length + v.length) (k := 0)
      (fun j hj => by omega)
    simpa using this
  have hopt : (pre.length + a.length + u1.length + g1.length + u2.length + g2.length
        + u3.length + g3.length + v.length + pc.length) ∈
      runRE (.opt (.cls colonDot))
        (pre ++ (a ++ (u1 ++ (g1 ++ (u2 ++ (g2 ++ (u3 ++ (g3 ++ (v ++ (pc ++ (b ++ post)))))))))))
        (pre.length + a.length + u1.length + g1.length + u2.length + g2.length
          + u3.length + g3.length + v.length) := by
    rcases hpc with rfl | ⟨c, rfl, hc⟩
    · simpa using mem_runRE_opt_skip
    · have hss : sliceAt
          (pre ++ (a ++ (u1 ++ (g1 ++ (u2 ++ (g2 ++ (u3 ++ (g3 ++ (v ++ ([c] ++ (b ++ post)))))))))))
          (pre.length + a.length + u1.length + g1.length + u2.length + g2.length
            + u3.length + g3.length + v.length) [c] :=
        sliceAt_of_eq (pre ++ (a ++ (u1 ++ (g1 ++ (u2 ++ (g2 ++ (u3 ++ (g3 ++ v)))))))) (b ++ post)
          (by simp) (by simp; omega)
      have hcm := mem_runRE_cls (p := colonDot) (by simpa using hss 0 (by simp)) hc
      simpa using mem_runRE_opt_take hcm
  have hsb : sliceAt
      (pre ++ (a ++ (u1 ++ (g1 ++ (u2 ++ (g2 ++ (u3 ++ (g3 ++ (v ++ (pc ++ (b ++ post)))))))))))
      (pre.length + a.length + u1.length + g1.length + u2.length + g2.length
        + u3.length + g3.length + v.length + pc.length) b :=
    sliceAt_of_eq (pre ++ (a ++ (u1 ++ (g1 ++ (u2 ++ (g2 ++ (u3 ++ (g3 ++ (v ++ pc))))))))) post
      (by simp) (by simp; omega)
  have hstarb := star_consume hsb hb
  have heol : (pre.length + a.length + u1.length + g1.length + u2.length + g2.length
        + u3.length + g3.length + v.length + pc.length + b.length) ∈
      runRE .eol
        (pre ++ (a ++ (u1 ++ (g1 ++ (u2 ++ (g2 ++ (u3 ++ (g3 ++ (v ++ (pc ++ (b ++ post)))))))))))
        (pre.length + a.length + u1.length + g1.length + u2.length + g2.length
          + u3.length + g3.length + v.length + pc.length + b.length) := by
    have h0 := eol_of_boundary
      (u := pre ++ (a ++ (u1 ++ (g1 ++ (u2 ++ (g2 ++ (u3 ++ (g3 ++ (v ++ (pc ++ b))))))))))
      (v := post) hpost
    have hT : (pre ++ (a ++ (u1 ++ (g1 ++ (u2 ++ (g2 ++ (u3 ++ (g3 ++ (v ++ (pc ++ b)))))))))) ++ post
        = pre ++ (a ++ (u1 ++ (g1 ++ (u2 ++ (g2 ++ (u3 ++ (g3 ++ (v ++ (pc ++ (b ++ post)))))))))) := by
      simp
    have hX : (pre ++ (a ++ (u1 ++ (g1 ++ (u2 ++ (g2 ++ (u3 ++ (g3 ++ (v ++ (pc ++ b)))))))))).length
        = pre.length + a.length + u1.length + g1.length + u2.length + g2.length
          + u3.length + g3.length + v.length + pc.length + b.length := by
      simp
      omega
    rwa [hT, hX] at h0
  exact List.ne_nil_of_mem (mem_runRE_seq hbol (mem_runRE_seq hstar1 (mem_runRE_seq hlit1
    (mem_runRE_seq hplus1 (mem_runRE_seq hlit2 (mem_runRE_seq hplus2 (mem_runRE_seq hlit3
      (mem_runRE_seq hstar3 (mem_runRE_seq hoptv (mem_runRE_seq hstar0
        (mem_runRE_seq hopt (mem_runRE_seq hstarb heol))))))))))))

/-- A line `a ++ u1 ++ g1 ++ u2 ++ g2 ++ u3 ++ g3 ++ v ++ pc ++ b` — a case
variant of `what we claim`, optionally followed by whitespace and a case
variant of `is`, with optional trailing `:`/`.` — matches
`^\s*what\s+we\s+claim\s*(is)?\s*[:\.]?\s*$`. -/
theorem claimsB3_construct (pre a u1 g1 u2 g2 u3 g3 v pc b post : List Char)
    (hpre : pre = [] ∨ ∃ p0, pre = p0 ++ ['\n'])
    (hpost : post = [] ∨ post.head? = some '\n')
    (ha : ∀ c ∈ a, isWs c = true) (hb : ∀ c ∈ b, isWs c = true)
    (hg1 : g1 ≠ []) (hg1w : ∀ c ∈ g1, isWs c = true)
    (hg2 : g2 ≠ []) (hg2w : ∀ c ∈ g2, isWs c = true)
    (hg3w : ∀ c ∈ g3, isWs c = true)
    (hu1 : u1.map Char.toLower = str "what") (hu2 : u2.map Char.toLower = str "we")
    (hu3 : u3.map Char.toLower = str "claim")
    (hv : v = [] ∨ v.map Char.toLower = str "is")
    (hpc : pc = [] ∨ ∃ c, pc = [c] ∧ colonDot c = true) :
    runRE claimsB3
      (pre ++ (a ++ (u1 ++ (g1 ++ (u2 ++ (g2 ++ (u3 ++ (g3 ++ (v ++ (pc ++ (b ++ post)))))))))))
      pre.length ≠ [] := by
  have hbol := bol_of_boundary
    (r := a ++ (u1 ++ (g1 ++ (u2 ++ (g2 ++ (u3 ++ (g3 ++ (v ++ (pc ++ (b ++ post)))))))))) hpre
  have hsa : sliceAt
      (pre ++ (a ++ (u1 ++ (g1 ++ (u2 ++ (g2 ++ (u3 ++ (g3 ++ (v ++ (pc ++ (b ++ post)))))))))))
      pre.length a :=
    sliceAt_of_eq pre (u1 ++ (g1 ++ (u2 ++ (g2 ++ (u3 ++ (g3 ++ (v ++ (pc ++ (b ++ post)))))))))
      (by simp) rfl
  have hstar1 := star_consume hsa ha
  have hs1 : sliceAt
      (pre ++ (a ++ (u1 ++ (g1 ++ (u2 ++ (g2 ++ (u3 ++ (g3 ++ (v ++ (pc ++ (b ++ post)))))))))))
      (pre.length + a.length) u1 :=
    sliceAt_of_eq (pre ++ a) (g1 ++ (u2 ++ (g2 ++ (u3 ++ (g3 ++ (v ++ (pc ++ (b ++ post))))))))
      (by simp) (by simp)
  have hlit1 := lit_consume hs1 hu1
  have hsg1 : sliceAt
      (pre ++ (a ++ (u1 ++ (g1 ++ (u2 ++ (g2 ++ (u3 ++ (g3 ++ (v ++ (pc ++ (b ++ post)))))))))))
      (pre.length + a.length + u1.length) g1 :=
    sliceAt_of_eq (pre ++ (a ++ u1)) (u2 ++ (g2 ++ (u3 ++ (g3 ++ (v ++ (pc ++ (b ++ post)))))))
      (by simp) (by simp; omega)
  have hplus1 := plus_consume hg1 hsg1 hg1w
  have hs2 : sliceAt
      (pre ++ (a ++ (u1 ++ (g1 ++ (u2 ++ (g2 ++ (u3 ++ (g3 ++ (v ++ (pc ++ (b ++ post)))))))))))
      (pre.length + a.length + u1.length + g1.length) u2 :=
    sliceAt_of_eq (pre ++ (a ++ (u1 ++ g1))) (g2 ++ (u3 ++ (g3 ++ (v ++ (pc ++ (b ++ post))))))
      (by simp) (by simp; omega)
  have hlit2 := lit_consume hs2 hu2
  have hsg2 : sliceAt
      (pre ++ (a ++ (u1 ++ (g1 ++ (u2 ++ (g2 ++ (u3 ++ (g3 ++ (v ++ (pc ++ (b ++ post)))))))))))
      (pre.length + a.length + u1.length + g1.length + u2.length) g2 :=
    sliceAt_of_eq (pre ++ (a ++ (u1 ++ (g1 ++ u2)))) (u3 ++ (g3 ++ (v ++ (pc ++ (b ++ post)))))
      (by simp) (by simp; omega)
  have hplus2 := plus_consume hg2 hsg2 hg2w
  have hs3 : sliceAt
      (pre ++ (a ++ (u1 ++ (g1 ++ (u2 ++ (g2 ++ (u3 ++ (g3 ++ (v ++ (pc ++ (b ++ post)))))))))))
      (pre.length + a.length + u1.length + g1.length + u2.length + g2.length) u3 :=
    sliceAt_of_eq (pre ++ (a ++ (u1 ++ (g1 ++ (u2 ++ g2))))) (g3 ++ (v ++ (pc ++ (b ++ post))))
      (by simp) (by simp; omega)
  have hlit3 := lit_consume hs3 hu3
  have hsg3 : sliceAt
      (pre ++ (a ++ (u1 ++ (g1 ++ (u2 ++ (g2 ++ (u3 ++ (g3 ++ (v ++ (pc ++ (b ++ post)))))))))))
      (pre.length + a.length + u1.length + g1.length + u2.length + g2.length + u3.length) g3 :=
    sliceAt_of_eq (pre ++ (a ++ (u1 ++ (g1 ++ (u2 ++ (g2 ++ u3)))))) (v ++ (pc ++ (b ++ post)))
      (by simp) (by simp; omega)
  have hstar3 := star_consume hsg3 hg3w
  have hoptv : (pre.length + a.length + u1.length + g1.length + u2.length + g2.length
        + u3.length + g3.length + v.length) ∈
      runRE (.opt (lit (str "is")))
        (pre ++ (a ++ (u1 ++ (g1 ++ (u2 ++ (g2 ++ (u3 ++ (g3 ++ (v ++ (pc ++ (b ++ post)))))))))))
        (pre.length + a.length + u1.length + g1.length + u2.length + g2.length
          + u3.length + g3.length) := by
    rcases hv with rfl | hlv
    · simpa using mem_runRE_opt_skip
    · have hsv : sliceAt
          (pre ++ (a ++ (u1 ++ (g1 ++ (u2 ++ (g2 ++ (u3 ++ (g3 ++ (v ++ (pc ++ (b ++ post)))))))))))
          (pre.length + a.length + u1.length + g1.length + u2.length + g2.length
            + u3.length + g3.length) v :=
        sliceAt_of_eq (pre ++ (a ++ (u1 ++ (g1 ++ (u2 ++ (g2 ++ (u3 ++ g3))))))) (pc ++ (b ++ post))
          (by simp) (by simp; omega)
      exact mem_runRE_opt_take (lit_consume hsv hlv)
  have hstar0 : (pre.length + a.length + u1.length + g1.length + u2.length + g2.length
        + u3.length + g3.length + v.length) ∈
      runRE wsStar
        (pre ++ (a ++ (u1 ++ (g1 ++ (u2 ++ (g2 ++ (u3 ++ (g3 ++ (v ++ (pc ++ (b ++ post)))))))))))
        (pre.length + a.length + u1.length + g1.length + u2.length + g2.length
          + u3.length + g3.length + v.length) := by
    have := mem_runRE_star (p := isWs)
      (t := pre ++ (a ++ (u1 ++ (g1 ++ (u2 ++ (g2 ++ (u3 ++ (g3 ++ (v ++ (pc ++ (b ++ post)))))))))))
      (i := pre.length + a.length + u1.length + g1.length + u2.length + g2.length
        + u3.length + g3.length + v.length) (k := 0)
      (fun j hj => by omega)
    simpa using this
  have hopt : (pre.length + a.length + u1.length + g1.length + u2.length + g2.length
        + u3.length + g3.length + v.length + pc.length) ∈
      runRE (.opt (.cls colonDot))
        (pre ++ (a ++ (u1 ++ (g1 ++ (u2 ++ (g2 ++ (u3 ++ (g3 ++ (v ++ (pc ++ (b ++ post)))))))))))
        (pre.length + a.length + u1.length + g1.length + u2.length + g2.length
          + u3.length + g3.length + v.length) := by
    rcases hpc with rfl | ⟨c, rfl, hc⟩
    · simpa using mem_runRE_opt_skip
    · have hss : sliceAt
          (pre ++ (a ++ (u1 ++ (g1 ++ (u2 ++ (g2 ++ (u3 ++ (g3 ++ (v ++ ([c] ++ (b ++ post)))))))))))
          (pre.length + a.length + u1.length + g1.length + u2.length + g2.length
            + u3.length + g3.length + v.length) [c] :=
        sliceAt_of_eq (pre ++ (a ++ (u1 ++ (g1 ++ (u2 ++ (g2 ++ (u3 ++ (g3 ++ v)))))))) (b ++ post)
          (by simp) (by simp; omega)
      have hcm := mem_runRE_cls (p := colonDot) (by simpa using hss 0 (by simp)) hc
      simpa using mem_runRE_opt_take hcm
  have hsb : sliceAt
      (pre ++ (a ++ (u1 ++ (g1 ++ (u2 ++ (g2 ++ (u3 ++ (g3 ++ (v ++ (pc ++ (b ++ post)))))))))))
      (pre.length + a.length + u1.length + g1.length + u2.length + g2.length
        + u3.length + g3.length + v.length + pc.length) b :=
    sliceAt_of_eq (pre ++ (a ++ (u1 ++ (g1 ++ (u2 ++ (g2 ++ (u3 ++ (g3 ++ (v ++ pc))))))))) post
      (by simp) (by simp; omega)
  have hstarb := star_consume hsb hb
  have heol : (pre.length + a.length + u1.length + g1.length + u2.length + g2.length
        + u3.length + g3.length + v.length + pc.length + b.length) ∈
      runRE .eol
        (pre ++ (a ++ (u1 ++ (g1 ++ (u2 ++ (g2 ++ (u3 ++ (g3 ++ (v ++ (pc ++ (b ++ post)))))))))))
        (pre.length + a.length + u1.length + g1.length + u2.length + g2.length
          + u3.length + g3.length + v.length + pc.length + b.length) := by
    have h0 := eol_of_boundary
      (u := pre ++ (a ++ (u1 ++ (g1 ++ (u2 ++ (g2 ++ (u3 ++ (g3 ++ (v ++ (pc ++ b))))))))))
      (v := post) hpost
    have hT : (pre ++ (a ++ (u1 ++ (g1 ++ (u2 ++ (g2 ++ (u3 ++ (g3 ++ (v ++ (pc ++ b)))))))))) ++ post
        = pre ++ (a ++ (u1 ++ (g1 ++ (u2 ++ (g2 ++ (u3 ++ (g3 ++ (v ++ (pc ++ (b ++ post)))))))))) := by
      simp
    have hX : (pre ++ (a ++ (u1 ++ (g1 ++ (u2 ++ (g2 ++ (u3 ++ (g3 ++ (v ++ (pc ++ b)))))))))).length
        = pre.length + a.length + u1.length + g1.length + u2.length + g2.length
          + u3.length + g3.length + v.length + pc.length + b.length := by
      simp
      omega
    rwa [hT, hX] at h0
  exact List.ne_nil_of_mem (mem_runRE_seq hbol (mem_runRE_seq hstar1 (mem_runRE_seq hlit1
    (mem_runRE_seq hplus1 (mem_runRE_seq hlit2 (mem_runRE_seq hplus2 (mem_runRE_seq hlit3
      (mem_runRE_seq hstar3 (mem_runRE_seq hoptv (mem_runRE_seq hstar0
        (mem_runRE_seq hopt (mem_runRE_seq hstarb heol))))))))))))

theorem alt_ne_left {a b : RE} {t : List Char} {i : Nat}
    (h : runRE a t i ≠ []) : runRE (.alt a b) t i ≠ [] := by
  unfold runRE
  intro hh
  exact h (List.append_eq_nil.mp hh).1

theorem alt_ne_right {a b : RE} {t : List Char} {i : Nat}
    (h : runRE b t i ≠ []) : runRE (.alt a b) t i ≠ [] := by
  unfold runRE
  intro hh
  exact h (List.append_eq_nil.mp hh).2

/-- C3 counterexample: `"Claims:"` alone on a line does NOT match the claims
header matcher — the bare `claims?` branch has no optional trailing colon or
period (`^\s*claims?\s*$`), and no other branch applies. -/
theorem C3_claims_colon_counterexample :
    reSearch claimsRE (str "Claims:") = none := by decide

/-- C3 (amended): every canonical claims-header phrase matches the matcher when
it occupies an entire line (optional surrounding whitespace, case-insensitive),
where the phrases `what is claimed (is)?`, `what we claim (is)?`, `i claim` and
`we claim` admit an optional trailing colon or period but the bare
`claim`/`claims` phrase admits none; in particular `"CLAIMS"`,
`"What is claimed is:"` and `"I claim:"` alone on a line match, while
`"Claim 1 is broad."` does not. -/
theorem C3_claims_header_matching :
    (∀ pre a u su b post : List Char,
      (pre = [] ∨ ∃ p0, pre = p0 ++ ['\n']) → (post = [] ∨ post.head? = some '\n') →
      (∀ c ∈ a, isWs c = true) → (∀ c ∈ b, isWs c = true) →
      u.map Char.toLower = str "claim" →
      (su = [] ∨ ∃ sc, su = [sc] ∧ sc.toLower = 's') →
      runRE claimsRE (pre ++ (a ++ (u ++ (su ++ (b ++ post))))) pre.length ≠ []) ∧
    (∀ pre a u1 g1 u2 g2 u3 g3 v pc b post : List Char,
      (pre = [] ∨ ∃ p0, pre = p0 ++ ['\n']) → (post = [] ∨ post.head? = some '\n') →
      (∀ c ∈ a, isWs c = true) → (∀ c ∈ b, isWs c = true) →
      g1 ≠ [] → (∀ c ∈ g1, isWs c = true) → g2 ≠ [] → (∀ c ∈ g2, isWs c = true) →
      (∀ c ∈ g3, isWs c = true) →
      u1.map Char.toLower = str "what" → u2.map Char.toLower = str "is" →
      u3.map Char.toLower = str "claimed" →
      (v = [] ∨ v.map Char.toLower = str "is") →
      (pc = [] ∨ ∃ c, pc = [c] ∧ colonDot c = true) →
      runRE claimsRE
        (pre ++ (a ++ (u1 ++ (g1 ++ (u2 ++ (g2 ++ (u3 ++ (g3 ++ (v ++ (pc ++ (b ++ post)))))))))))
        pre.length ≠ []) ∧
    (∀ pre a u1 g1 u2 g2 u3 g3 v pc b post : List Char,
      (pre = [] ∨ ∃ p0, pre = p0 ++ ['\n']) → (post = [] ∨ post.head? = some '\n') →
      (∀ c ∈ a, isWs c = true) → (∀ c ∈ b, isWs c = true) →
      g1 ≠ [] → (∀ c ∈ g1, isWs c = true) → g2 ≠ [] → (∀ c ∈ g2, isWs c = true) →
      (∀ c ∈ g3, isWs c = true) →
      u1.map Char.toLower = str "what" → u2.map Char.toLower = str "we" →
      u3.map Char.toLower = str "claim" →
      (v = [] ∨ v.map Char.toLower = str "is") →
      (pc = [] ∨ ∃ c, pc = [c] ∧ colonDot c = true) →
      runRE claimsRE
        (pre ++ (a ++ (u1 ++ (g1 ++ (u2 ++ (g2 ++ (u3 ++ (g3 ++ (v ++ (pc ++ (b ++ post)))))))))))
        pre.length ≠ []) ∧
    (∀ pre a u1 g u2 pc b post : List Char,
      (pre = [] ∨ ∃ p0, pre = p0 ++ ['\n']) → (post = [] ∨ post.head? = some '\n') →
      (∀ c ∈ a, isWs c = true) → (∀ c ∈ b, isWs c = true) →
      g ≠ [] → (∀ c ∈ g, isWs c = true) →
      u1.map Char.toLower = str "i" → u2.map Char.toLower = str "claim" →
      (pc = [] ∨ ∃ c, pc = [c] ∧ colonDot c = true) →
      runRE claimsRE (pre ++ (a ++ (u1 ++ (g ++ (u2 ++ (pc ++ (b ++ post)))))))
        pre.length ≠ []) ∧
    (∀ pre a u1 g u2 pc b post : List Char,
      (pre = [] ∨ ∃ p0, pre = p0 ++ ['\n']) → (post = [] ∨ post.head? = some '\n') →
      (∀ c ∈ a, isWs c = true) → (∀ c ∈ b, isWs c = true) →
      g ≠ [] → (∀ c ∈ g, isWs c = true) →
      u1.map Char.toLower = str "we" → u2.map Char.toLower = str "claim" →
      (pc = [] ∨ ∃ c, pc = [c] ∧ colonDot c = true) →
      runRE claimsRE (pre ++ (a ++ (u1 ++ (g ++ (u2 ++ (pc ++ (b ++ post)))))))
        pre.length ≠ []) ∧
    reSearch claimsRE (str "CLAIMS") = some (0, 6) ∧
    reSearch claimsRE (str "What is claimed is:") = some (0, 19) ∧
    reSearch claimsRE (str "I claim:") = some (0, 8) ∧
    reSearch claimsRE (str "Claim 1 is broad.") = none := by
  refine ⟨?_, ?_, ?_, ?_, ?_, by decide, by decide, by decide, by decide⟩
  · intro pre a u su b post h1 h2 h3 h4 h5 h6
    unfold claimsRE
    exact alt_ne_left (claimsB1_construct pre a u su b post h1 h2 h3 h4 h5 h6)
  · intro pre a u1 g1 u2 g2 u3 g3 v pc b post h1 h2 h3 h4 h5 h6 h7 h8 h9 h10 h11 h12 h13 h14
    unfold claimsRE
    exact alt_ne_right (alt_ne_left
      (claimsB2_construct pre a u1 g1 u2 g2 u3 g3 v pc b post h1 h2 h3 h4 h5 h6 h7 h8 h9 h10
        h11 h12 h13 h14))
  · intro pre a u1 g1 u2 g2 u3 g3 v pc b post h1 h2 h3 h4 h5 h6 h7 h8 h9 h10 h11 h12 h13 h14
    unfold claimsRE
    exact alt_ne_right (alt_ne_right (alt_ne_left
      (claimsB3_construct pre a u1 g1 u2 g2 u3 g3 v pc b post h1 h2 h3 h4 h5 h6 h7 h8 h9 h10
        h11 h12 h13 h14)))
  · intro pre a u1 g u2 pc b post h1 h2 h3 h4 h5 h6 h7 h8 h9
    unfold claimsRE
    exact alt_ne_right (alt_ne_right (alt_ne_right (alt_ne_left
      (claimsB4_construct pre a u1 g u2 pc b post h1 h2 h3 h4 h5 h6 h7 h8 h9))))
  · intro pre a u1 g u2 pc b post h1 h2 h3 h4 h5 h6 h7 h8 h9
    unfold claimsRE
    exact alt_ne_right (alt_ne_right (alt_ne_right (alt_ne_right
      (claimsB5_construct pre a u1 g u2 pc b post h1 h2 h3 h4 h5 h6 h7 h8 h9))))

/-- C3 witness. -/
theorem C3_claims_header_witness :
    runRE claimsRE (str "before\n" ++ (str "  " ++ (str "CLAIM" ++ (str "S" ++
      (str " " ++ str "\nafter"))))) (str "before\n").length ≠ [] ∧
    runRE claimsRE (([] : List Char) ++ (([] : List Char) ++ (str "I" ++ (str " " ++
      (str "claim" ++ (str ":" ++ (([] : List Char) ++ ([] : List Char))))))))
      (List.length ([] : List Char)) ≠ [] :=
  ⟨C3_claims_header_matching.1 (str "before\n") (str "  ") (str "CLAIM") (str "S")
      (str " ") (str "\nafter")
      (Or.inr ⟨str "before", rfl⟩) (Or.inr (by decide)) (by decide) (by decide)
      (by decide) (Or.inr ⟨'S', rfl, by decide⟩),
   C3_claims_header_matching.2.2.2.1 [] [] (str "I") (str " ") (str "claim") (str ":") [] []
      (Or.inl rfl) (Or.inl rfl) (by decide) (by decide) (by decide) (by decide)
      (by decide) (by decide) (Or.inr ⟨':', rfl, by decide⟩)⟩

/-! ## C9 groundwork: character classes under `toLower`, trim decompositions -/

theorem ws_toLower_self {c : Char} (h : isWs c = true) : c.toLower = c := by
  rcases ws_chars h with h1 | h1 | h1 | h1 | h1 | h1 <;> subst h1 <;> decide

theorem not_ws_of_toLower {c x : Char} (h : c.toLower = x) (hx : isWs x = false) :
    isWs c = false := by
  cases hw : isWs c with
  | false => rfl
  | true =>
    rw [ws_toLower_self hw] at h
    subst h
    exact (hx.symm.trans hw).symm

theorem ne_nl_of_toLower {c x : Char} (h : c.toLower = x) (hx : x ≠ '\n') : c ≠ '\n' := by
  intro hc
  subst hc
  exact hx (h.symm.trans (by decide : Char.toLower '\n' = '\n'))

theorem colonDot_chars {c : Char} (h : colonDot c = true) : c = ':' ∨ c = '.' := by
  simp only [colonDot, Bool.or_eq_true, beq_iff_eq] at h
  exact h

theorem colonDot_not_ws {c : Char} (h : colonDot c = true) : isWs c = false := by
  rcases colonDot_chars h with rfl | rfl <;> decide

theorem colonDot_toLower_ne_a {c : Char} (h : colonDot c = true) : c.toLower ≠ 'a' := by
  rcases colonDot_chars h with rfl | rfl <;> decide

theorem colonDot_ne_nl {c : Char} (h : colonDot c = true) : c ≠ '\n' := by
  rcases colonDot_chars h with rfl | rfl <;> decide

theorem dropWhile_append_of_all {p : Char → Bool} {A : List Char} (B : List Char)
    (h : ∀ c ∈ A, p c = true) : (A ++ B).dropWhile p = B.dropWhile p := by
  induction A with
  | nil => rfl
  | cons a as ih =>
    rw [List.cons_append, List.dropWhile_cons, if_pos (h a (by simp))]
    exact ih (fun c hc => h c (List.mem_cons_of_mem a hc))

theorem dropWhile_head_neg {p : Char → Bool} {A : List Char} {c : Char}
    (hh : A.head? = some c) (hc : p c = false) : A.dropWhile p = A := by
  cases A with
  | nil => rfl
  | cons a as =>
    simp only [List.head?] at hh
    rw [List.dropWhile_cons, Option.some.inj hh, if_neg (by rw [hc]; simp)]

theorem dropWhile_append_first {p : Char → Bool} {A : List Char} (B : List Char)
    (h : A.dropWhile p ≠ []) : (A ++ B).dropWhile p = A.dropWhile p ++ B := by
  induction A with
  | nil => exact absurd rfl h
  | cons a as ih =>
    by_cases hp : p a = true
    · rw [List.dropWhile_cons, if_pos hp] at h
      rw [List.cons_append, List.dropWhile_cons, if_pos hp, List.dropWhile_cons, if_pos hp]
      exact ih h
    · rw [List.cons_append, List.dropWhile_cons, if_neg hp, List.dropWhile_cons, if_neg hp]
      rfl

theorem trimR_concat {u : List Char} {c : Char} (hc : isWs c = false) :
    trimR (u ++ [c]) = u ++ [c] := by
  unfold trimR
  rw [List.reverse_append]
  simp only [List.reverse_cons, List.reverse_nil, List.nil_append, List.singleton_append]
  rw [List.dropWhile_cons, if_neg (by rw [hc]; simp)]
  simp

theorem trimR_append_exists (u v : List Char) (hu : trimR u = u) :
    ∃ r, trimR (u ++ v) = u ++ r := by
  by_cases hv : v.reverse.dropWhile isWs = []
  · refine ⟨[], ?_⟩
    unfold trimR
    rw [List.reverse_append,
      dropWhile_append_of_all u.reverse (List.dropWhile_eq_nil_iff.mp hv),
      List.append_nil]
    exact hu
  · refine ⟨(v.reverse.dropWhile isWs).reverse, ?_⟩
    unfold trimR
    rw [List.reverse_append, dropWhile_append_first _ hv, List.reverse_append,
      List.reverse_reverse]

theorem take_concat_get? {l : List Char} {j : Nat} {c : Char}
    (h : l.get? j = some c) : l.take (j + 1) = l.take j ++ [c] := by
  induction l generalizing j with
  | nil => simp at h
  | cons a as ih =>
    cases j with
    | zero =>
      rw [List.get?_cons_zero] at h
      injection h with h
      subst h
      rfl
    | succ n =>
      rw [List.get?_cons_succ] at h
      rw [List.take_succ_cons, List.take_succ_cons, ih h]
      rfl

theorem drop_append_le {A : List Char} (B : List Char) :
    ∀ {n : Nat}, n ≤ A.length → (A ++ B).drop n = A.drop n ++ B := by
  induction A with
  | nil =>
    intro n h
    have h0 : n = 0 := Nat.le_zero.mp h
    subst h0
    rfl
  | cons a as ih =>
    intro n h
    cases n with
    | zero => simp
    | succ m =>
      simp only [List.cons_append, List.drop_succ_cons]
      exact ih (by simpa using h)

/-! ## C9: structure of a claims-header match -/

/-- Whitespace character at index `j`. -/
def wsAt (t : List Char) (j : Nat) : Prop :=
  ∃ c, t.get? j = some c ∧ isWs c = true

/-- A non-whitespace character at `j` whose lowercase form is not `'a'`. -/
def nonAAt (t : List Char) (j : Nat) : Prop :=
  ∃ c, t.get? j = some c ∧ isWs c = false ∧ c.toLower ≠ 'a'

/-- The structural facts C9 needs about the span `[s, e)` of a claims-header
match: leading whitespace up to `q`, a first phrase character at `q` that is
neither whitespace nor (case-insensitively) `'a'`, a last non-whitespace
character just before `bnd`, only whitespace in `[bnd, e)`, and: every
line start strictly inside `(q, bnd)` is followed (after whitespace) by a
non-`'a'` character before `bnd`. -/
def HeaderSpan (t : List Char) (s q bnd e : Nat) : Prop :=
  s ≤ q ∧ q < bnd ∧ bnd ≤ e ∧ e ≤ t.length ∧
  (∀ j, s ≤ j → j < q → wsAt t j) ∧
  nonAAt t q ∧
  (∃ c, t.get? (bnd - 1) = some c ∧ isWs c = false) ∧
  (∀ j, bnd ≤ j → j < e → wsAt t j) ∧
  (∀ p, q < p → p < bnd → t.get? (p - 1) = some '\n' →
    ∃ k, (∀ j, j < k → wsAt t (p + j)) ∧ p + k < bnd ∧ nonAAt t (p + k))

/-- Any abstract-header match starts at a line start and, after a whitespace
run, sees a (non-whitespace) letter `a`/`A`. -/
theorem abstract_match_head {t : List Char} {p e : Nat} (h : e ∈ runRE abstractRE t p) :
    (p = 0 ∨ t.get? (p - 1) = some '\n') ∧
    ∃ k, (∀ j, j < k → wsAt t (p + j)) ∧
      ∃ c, t.get? (p + k) = some c ∧ isWs c = false ∧ c.toLower = 'a' := by
  have main : ∀ (X : RE), e ∈ runRE (.seq .bol (.seq wsStar (.seq (lit (str "abstract")) X))) t p →
      (p = 0 ∨ t.get? (p - 1) = some '\n') ∧
      ∃ k, (∀ j, j < k → wsAt t (p + j)) ∧
        ∃ c, t.get? (p + k) = some c ∧ isWs c = false ∧ c.toLower = 'a' := by
    intro X hX
    obtain ⟨m0, hb, h1⟩ := runRE_seq_inv hX
    have heq0 := (runRE_bol_inv hb).1
    have hbol := (runRE_bol_inv hb).2
    rw [heq0] at h1
    obtain ⟨m1, hst, h2⟩ := runRE_seq_inv h1
    obtain ⟨hle, hws⟩ := runRE_star_inv hst
    obtain ⟨m2, hlit, _⟩ := runRE_seq_inv h2
    obtain ⟨rfl, hchars⟩ := runRE_lit_inv _ hlit
    obtain ⟨c, cw, hc, hcw, hlc⟩ := hchars 0 (by decide)
    refine ⟨hbol, m1 - p, fun j hj => ?_, c, ?_, ?_, ?_⟩
    · obtain ⟨cc, hcc, hwcc⟩ := hws (p + j) (by omega) (by omega)
      exact ⟨cc, hcc, hwcc⟩
    · rwa [show p + (m1 - p) = m1 + 0 by omega]
    · have hcw' : cw = 'a' := by
        have : (str "abstract").get? 0 = some 'a' := by decide
        rw [this] at hcw
        exact (Option.some.inj hcw).symm
      exact not_ws_of_toLower (hcw' ▸ hlc) (by decide)
    · have hcw' : cw = 'a' := by
        have : (str "abstract").get? 0 = some 'a' := by decide
        rw [this] at hcw
        exact (Option.some.inj hcw).symm
      exact hcw' ▸ hlc
  unfold abstractRE at h
  rcases runRE_alt_inv h with h1 | h1
  · exact main _ h1
  rcases runRE_alt_inv h1 with h2 | h2
  · exact main _ h2
  rcases runRE_alt_inv h2 with h3 | h3
  · exact main _ h3
  rcases runRE_alt_inv h3 with h4 | h4
  · exact main _ h4
  · exact main _ h4

theorem str_claim_chars : ∀ j, j < (str "claim").length →
    ∀ cw, (str "claim").get? j = some cw → cw ≠ '\n' := by decide

theorem claimsB1_span {t : List Char} {s e : Nat} (h : e ∈ runRE claimsB1 t s) :
    ∃ q bnd, HeaderSpan t s q bnd e := by
  obtain ⟨m0, hb, h1⟩ := runRE_seq_inv h
  have heq0 := (runRE_bol_inv hb).1
  rw [heq0] at h1
  obtain ⟨m1, hst, h2⟩ := runRE_seq_inv h1
  obtain ⟨hle1, hws1⟩ := runRE_star_inv hst
  obtain ⟨m2, hlit, h3⟩ := runRE_seq_inv h2
  obtain ⟨hm2, hchars⟩ := runRE_lit_inv _ hlit
  obtain ⟨m3, hopt, h4⟩ := runRE_seq_inv h3
  obtain ⟨m4, hst2, h5⟩ := runRE_seq_inv h4
  obtain ⟨hle2, hws2⟩ := runRE_star_inv hst2
  obtain ⟨heqe, heol⟩ := runRE_eol_inv h5
  subst heqe
  have hlen5 : (str "claim").length = 5 := by decide
  rw [hlen5] at hm2
  subst hm2
  have hm3 : (m3 = m1 + 5 + 1 ∧ ∃ c, t.get? (m1 + 5) = some c ∧ c.toLower = 's')
      ∨ m3 = m1 + 5 := by
    rcases runRE_opt_inv hopt with hc | rfl
    · obtain ⟨he1, c, hg, hp⟩ := runRE_cls_inv hc
      refine Or.inl ⟨he1, c, hg, ?_⟩
      simpa [ciIs] using hp
    · exact Or.inr rfl
  have helen : e ≤ t.length := by
    rcases heol with rfl | hg
    · exact Nat.le_refl _
    · obtain ⟨hlt, -⟩ := List.get?_eq_some.mp hg
      omega
  have hm3ge : m1 + 5 ≤ m3 ∧ m3 ≤ m1 + 6 := by
    rcases hm3 with ⟨rfl, -⟩ | rfl <;> omega
  refine ⟨m1, m3, hle1, by omega, by omega, helen, ?_, ?_, ?_, ?_, ?_⟩
  · intro j hj1 hj2
    exact hws1 j hj1 hj2
  · obtain ⟨c, cw, hc, hcw, hlc⟩ := hchars 0 (by decide)
    have hcw' : cw = 'c' := by
      have hd : (str "claim").get? 0 = some 'c' := by decide
      rw [hd] at hcw
      exact (Option.some.inj hcw).symm
    subst hcw'
    refine ⟨c, by simpa using hc, not_ws_of_toLower hlc (by decide), ?_⟩
    rw [hlc]
    decide
  · rcases hm3 with ⟨rfl, c, hg, hlc⟩ | rfl
    · exact ⟨c, by rwa [show m1 + 5 + 1 - 1 = m1 + 5 by omega],
        not_ws_of_toLower hlc (by decide)⟩
    · obtain ⟨c, cw, hc, hcw, hlc⟩ := hchars 4 (by decide)
      have hcw' : cw = 'm' := by
        have hd : (str "claim").get? 4 = some 'm' := by decide
        rw [hd] at hcw
        exact (Option.some.inj hcw).symm
      subst hcw'
      exact ⟨c, by rwa [show m1 + 5 - 1 = m1 + 4 by omega],
        not_ws_of_toLower hlc (by decide)⟩
  · intro j hj1 hj2
    exact hws2 j hj1 hj2
  · intro p hp1 hp2 hnl
    exfalso
    have hd : p - 1 - m1 < 5 := by omega
    obtain ⟨c, cw, hc, hcw, hlc⟩ := hchars (p - 1 - m1) (by rw [hlen5]; omega)
    rw [show m1 + (p - 1 - m1) = p - 1 by omega] at hc
    rw [hnl] at hc
    have hcnl : cw ≠ '\n' := str_claim_chars _ (by rw [hlen5]; omega) cw hcw
    exact absurd (by rw [← hlc, (Option.some.inj hc).symm]; decide) hcnl.symm

theorem claimsB45_span {w1 : List Char} (hw1len : 0 < w1.length)
    (hw1c : ∀ j, j < w1.length → ∀ cw, w1.get? j = some cw → cw ≠ '\n')
    (hw1f : ∀ cw, w1.get? 0 = some cw → isWs cw = false ∧ cw ≠ 'a')
    {t : List Char} {s e : Nat}
    (h : e ∈ runRE (.seq .bol (.seq wsStar (.seq (lit w1) (.seq wsPlus
      (.seq (lit (str "claim")) (.seq wsStar (.seq (.opt (.cls colonDot))
        (.seq wsStar .eol)))))))) t s) :
    ∃ q bnd, HeaderSpan t s q bnd e := by
  obtain ⟨m0, hb, h1⟩ := runRE_seq_inv h
  have heq0 := (runRE_bol_inv hb).1
  rw [heq0] at h1
  obtain ⟨m1, hst, h2⟩ := runRE_seq_inv h1
  obtain ⟨hle1, hws1⟩ := runRE_star_inv hst
  obtain ⟨m2, hlit1, h3⟩ := runRE_seq_inv h2
  obtain ⟨hm2, hchars1⟩ := runRE_lit_inv _ hlit1
  subst hm2
  obtain ⟨m3, hpl, h4⟩ := runRE_seq_inv h3
  obtain ⟨hlt3, hws3⟩ := runRE_plus_inv hpl
  obtain ⟨m4, hlit2, h5⟩ := runRE_seq_inv h4
  obtain ⟨hm4, hchars2⟩ := runRE_lit_inv _ hlit2
  have hlen5 : (str "claim").length = 5 := by decide
  rw [hlen5] at hm4
  subst hm4
  obtain ⟨m5, hst1, h6⟩ := runRE_seq_inv h5
  obtain ⟨hle5, hws5⟩ := runRE_star_inv hst1
  obtain ⟨m6, hopt, h7⟩ := runRE_seq_inv h6
  obtain ⟨m7, hst2, h8⟩ := runRE_seq_inv h7
  obtain ⟨hle7, hws7⟩ := runRE_star_inv hst2
  obtain ⟨heqe, heol⟩ := runRE_eol_inv h8
  subst heqe
  have helen : e ≤ t.length := by
    rcases heol with rfl | hg
    · exact Nat.le_refl _
    · obtain ⟨hlt, -⟩ := List.get?_eq_some.mp hg
      omega
  have hclaim0 : ∃ c, t.get? m3 = some c ∧ isWs c = false ∧ c.toLower ≠ 'a' := by
    obtain ⟨c, cw, hc, hcw, hlc⟩ := hchars2 0 (by decide)
    have hcw' : cw = 'c' := by
      have hd : (str "claim").get? 0 = some 'c' := by decide
      rw [hd] at hcw
      exact (Option.some.inj hcw).symm
    subst hcw'
    refine ⟨c, by simpa using hc, not_ws_of_toLower hlc (by decide), ?_⟩
    rw [hlc]
    decide
  have hwordA : ∀ p, m1 ≤ p → p < m1 + w1.length → t.get? p ≠ some '\n' := by
    intro p hp1 hp2 hc
    obtain ⟨c, cw, hcc, hcw, hlc⟩ := hchars1 (p - m1) (by omega)
    rw [show m1 + (p - m1) = p by omega, hc] at hcc
    exact absurd (by rw [← hlc, (Option.some.inj hcc).symm]; decide)
      (hw1c _ (by omega) cw hcw).symm
  have hwordB : ∀ p, m3 ≤ p → p < m3 + 5 → t.get? p ≠ some '\n' := by
    intro p hp1 hp2 hc
    obtain ⟨c, cw, hcc, hcw, hlc⟩ := hchars2 (p - m3) (by rw [hlen5]; omega)
    rw [show m3 + (p - m3) = p by omega, hc] at hcc
    exact absurd (by rw [← hlc, (Option.some.inj hcc).symm]; decide)
      (str_claim_chars _ (by rw [hlen5]; omega) cw hcw).symm
  have hfirst : nonAAt t m1 := by
    obtain ⟨c, cw, hc, hcw, hlc⟩ := hchars1 0 (by omega)
    obtain ⟨hf1, hf2⟩ := hw1f cw hcw
    refine ⟨c, by simpa using hc, not_ws_of_toLower hlc hf1, ?_⟩
    rw [hlc]
    exact hf2
  rcases runRE_opt_inv hopt with hctake | heq6
  · -- trailing punctuation present
    obtain ⟨hm6, cp, hgp, hpp⟩ := runRE_cls_inv hctake
    subst hm6
    refine ⟨m1, m5 + 1, hle1, by omega, by omega, helen, hws1, hfirst, ?_, ?_, ?_⟩
    · exact ⟨cp, by simpa using hgp, colonDot_not_ws hpp⟩
    · intro j hj1 hj2
      exact hws7 j hj1 hj2
    · intro p hp1 hp2 hnl
      rcases Nat.lt_or_ge (p - 1) (m1 + w1.length) with hr1 | hr1
      · exact absurd hnl (hwordA (p - 1) (by omega) hr1)
      rcases Nat.lt_or_ge (p - 1) m3 with hr2 | hr2
      · refine ⟨m3 - p, fun j hj => ?_, by omega, ?_⟩
        · obtain ⟨c, hcg, hcw⟩ := hws3 (p + j) (by omega) (by omega)
          exact ⟨c, hcg, hcw⟩
        · rw [show p + (m3 - p) = m3 by omega]
          exact hclaim0
      rcases Nat.lt_or_ge (p - 1) (m3 + 5) with hr3 | hr3
      · exact absurd hnl (hwordB (p - 1) hr2 hr3)
      · refine ⟨m5 - p, fun j hj => ?_, by omega, ?_⟩
        · obtain ⟨c, hcg, hcw⟩ := hws5 (p + j) (by omega) (by omega)
          exact ⟨c, hcg, hcw⟩
        · rw [show p + (m5 - p) = m5 by omega]
          exact ⟨cp, hgp, colonDot_not_ws hpp, colonDot_toLower_ne_a hpp⟩
  · -- no trailing punctuation
    subst heq6
    refine ⟨m1, m3 + 5, hle1, by omega, by omega, helen, hws1, hfirst, ?_, ?_, ?_⟩
    · obtain ⟨c, cw, hc, hcw, hlc⟩ := hchars2 4 (by decide)
      have hcw' : cw = 'm' := by
        have hd : (str "claim").get? 4 = some 'm' := by decide
        rw [hd] at hcw
        exact (Option.some.inj hcw).symm
      subst hcw'
      exact ⟨c, by rwa [show m3 + 5 - 1 = m3 + 4 by omega],
        not_ws_of_toLower hlc (by decide)⟩
    · intro j hj1 hj2
      rcases Nat.lt_or_ge j m6 with hlt | hge
      · exact hws5 j hj1 hlt
      · exact hws7 j hge hj2
    · intro p hp1 hp2 hnl
      rcases Nat.lt_or_ge (p - 1) (m1 + w1.length) with hr1 | hr1
      · exact absurd hnl (hwordA (p - 1) (by omega) hr1)
      rcases Nat.lt_or_ge (p - 1) m3 with hr2 | hr2
      · refine ⟨m3 - p, fun j hj => ?_, by omega, ?_⟩
        · obtain ⟨c, hcg, hcw⟩ := hws3 (p + j) (by omega) (by omega)
          exact ⟨c, hcg, hcw⟩
        · rw [show p + (m3 - p) = m3 by omega]
          exact hclaim0
      · exact absurd hnl (hwordB (p - 1) hr2 (by omega))

theorem gap_no_a {t : List Char} {lo hi bnd p : Nat}
    (hws : ∀ j, lo ≤ j → j < hi → ∃ c, t.get? j = some c ∧ isWs c = true)
    (hna : nonAAt t hi) (hp1 : lo ≤ p) (hp2 : p ≤ hi) (hbnd : hi < bnd) :
    ∃ k, (∀ j, j < k → wsAt t (p + j)) ∧ p + k < bnd ∧ nonAAt t (p + k) := by
  refine ⟨hi - p, fun j hj => ?_, by omega, ?_⟩
  · obtain ⟨c, hcg, hcw⟩ := hws (p + j) (by omega) (by omega)
    exact ⟨c, hcg, hcw⟩
  · rw [show p + (hi - p) = hi by omega]
    exact hna

theorem word_no_nl {t : List Char} {m : Nat} {w : List Char}
    (hch : ∀ j, j < w.length →
      ∃ c cw, t.get? (m + j) = some c ∧ w.get? j = some cw ∧ c.toLower = cw)
    (hwc : ∀ j, j < w.length → ∀ cw, w.get? j = some cw → cw ≠ '\n') :
    ∀ p, m ≤ p → p < m + w.length → t.get? p ≠ some '\n' := by
  intro p hp1 hp2 hc
  obtain ⟨c, cw, hcc, hcw, hlc⟩ := hch (p - m) (by omega)
  rw [show m + (p - m) = p by omega, hc] at hcc
  exact absurd (by rw [← hlc, (Option.some.inj hcc).symm]; decide)
    (hwc _ (by omega) cw hcw).symm

theorem word_first_nonA {t : List Char} {m : Nat} {w : List Char}
    (hch : ∀ j, j < w.length →
      ∃ c cw, t.get? (m + j) = some c ∧ w.get? j = some cw ∧ c.toLower = cw)
    (hf : ∀ cw, w.get? 0 = some cw → isWs cw = false ∧ cw ≠ 'a')
    (hlen : 0 < w.length) : nonAAt t m := by
  obtain ⟨c, cw, hc, hcw, hlc⟩ := hch 0 hlen
  obtain ⟨hf1, hf2⟩ := hf cw hcw
  refine ⟨c, by simpa using hc, not_ws_of_toLower hlc hf1, ?_⟩
  rw [hlc]
  exact hf2

theorem claimsB23_span {w1 w2 w3 : List Char}
    (hl1 : 0 < w1.length) (hl2 : 0 < w2.length) (hl3 : 0 < w3.length)
    (hw1c : ∀ j, j < w1.length → ∀ cw, w1.get? j = some cw → cw ≠ '\n')
    (hw2c : ∀ j, j < w2.length → ∀ cw, w2.get? j = some cw → cw ≠ '\n')
    (hw3c : ∀ j, j < w3.length → ∀ cw, w3.get? j = some cw → cw ≠ '\n')
    (hw1f : ∀ cw, w1.get? 0 = some cw → isWs cw = false ∧ cw ≠ 'a')
    (hw2f : ∀ cw, w2.get? 0 = some cw → isWs cw = false ∧ cw ≠ 'a')
    (hw3f : ∀ cw, w3.get? 0 = some cw → isWs cw = false ∧ cw ≠ 'a')
    (hw3l : ∀ cw, w3.get? (w3.length - 1) = some cw → isWs cw = false)
    {t : List Char} {s e : Nat}
    (h : e ∈ runRE (.seq .bol (.seq wsStar (.seq (lit w1) (.seq wsPlus (.seq (lit w2)
      (.seq wsPlus (.seq (lit w3) (.seq wsStar (.seq (.opt (lit (str "is")))
        (.seq wsStar (.seq (.opt (.cls colonDot)) (.seq wsStar .eol)))))))))))) t s) :
    ∃ q bnd, HeaderSpan t s q bnd e := by
  obtain ⟨m0, hb, h1⟩ := runRE_seq_inv h
  have heq0 := (runRE_bol_inv hb).1
  rw [heq0] at h1
  obtain ⟨m1, hst, h2⟩ := runRE_seq_inv h1
  obtain ⟨hle1, hws1⟩ := runRE_star_inv hst
  obtain ⟨a1, hlit1, h3⟩ := runRE_seq_inv h2
  obtain ⟨ha1, hchars1⟩ := runRE_lit_inv _ hlit1
  subst ha1
  obtain ⟨a2, hpl1, h4⟩ := runRE_seq_inv h3
  obtain ⟨hlta2, hwsg1⟩ := runRE_plus_inv hpl1
  obtain ⟨a3, hlit2, h5⟩ := runRE_seq_inv h4
  obtain ⟨ha3, hchars2⟩ := runRE_lit_inv _ hlit2
  subst ha3
  obtain ⟨a4, hpl2, h6⟩ := runRE_seq_inv h5
  obtain ⟨hlta4, hwsg2⟩ := runRE_plus_inv hpl2
  obtain ⟨a5, hlit3, h7⟩ := runRE_seq_inv h6
  obtain ⟨ha5, hchars3⟩ := runRE_lit_inv _ hlit3
  subst ha5
  obtain ⟨a6, hstA, h8⟩ := runRE_seq_inv h7
  obtain ⟨hlea6, hwsA⟩ := runRE_star_inv hstA
  obtain ⟨a7, hoptIs, h9⟩ := runRE_seq_inv h8
  obtain ⟨a8, hstB, h10⟩ := runRE_seq_inv h9
  obtain ⟨hlea8, hwsB⟩ := runRE_star_inv hstB
  obtain ⟨a9, hoptPc, h11⟩ := runRE_seq_inv h10
  obtain ⟨a10, hstC, h12⟩ := runRE_seq_inv h11
  obtain ⟨hlea10, hwsC⟩ := runRE_star_inv hstC
  obtain ⟨heqe, heol⟩ := runRE_eol_inv h12
  subst heqe
  have helen : e ≤ t.length := by
    rcases heol with rfl | hg
    · exact Nat.le_refl _
    · obtain ⟨hlt, -⟩ := List.get?_eq_some.mp hg
      omega
  have hw2head : nonAAt t (m1 + w1.length + (a2 - (m1 + w1.length))) := by
    rw [show m1 + w1.length + (a2 - (m1 + w1.length)) = a2 by omega]
    exact word_first_nonA hchars2 hw2f hl2
  have hw2head' : nonAAt t a2 := by
    rwa [show m1 + w1.length + (a2 - (m1 + w1.length)) = a2 by omega] at hw2head
  have hw3head : nonAAt t a4 := word_first_nonA hchars3 hw3f hl3
  have hword1 := word_no_nl hchars1 hw1c
  have hword2 := word_no_nl hchars2 hw2c
  have hword3 := word_no_nl hchars3 hw3c
  have hfirst : nonAAt t m1 := word_first_nonA hchars1 hw1f hl1
  -- shared interior analysis up to the end of w3
  have hcore : ∀ bnd, a4 + w3.length ≤ bnd →
      ∀ p, m1 < p → p - 1 < a4 + w3.length → t.get? (p - 1) = some '\n' →
      ∃ k, (∀ j, j < k → wsAt t (p + j)) ∧ p + k < bnd ∧ nonAAt t (p + k) := by
    intro bnd hbge p hp1 hp2 hnl
    rcases Nat.lt_or_ge (p - 1) (m1 + w1.length) with hr1 | hr1
    · exact absurd hnl (hword1 (p - 1) (by omega) hr1)
    rcases Nat.lt_or_ge (p - 1) a2 with hr2 | hr2
    · exact gap_no_a hwsg1 hw2head' (by omega) (by omega) (by omega)
    rcases Nat.lt_or_ge (p - 1) (a2 + w2.length) with hr3 | hr3
    · exact absurd hnl (hword2 (p - 1) hr2 hr3)
    rcases Nat.lt_or_ge (p - 1) a4 with hr4 | hr4
    · exact gap_no_a hwsg2 hw3head (by omega) (by omega) (by omega)
    · exact absurd hnl (hword3 (p - 1) hr4 hp2)
  rcases runRE_opt_inv hoptIs with hIs | heqIs
  · -- "is" present
    obtain ⟨ha7, hcharsIs⟩ := runRE_lit_inv _ hIs
    have hlen2 : (str "is").length = 2 := by decide
    rw [hlen2] at ha7
    subst ha7
    have hIs0 : nonAAt t a6 := by
      refine word_first_nonA hcharsIs ?_ (by decide)
      intro cw hcw
      have hd : (str "is").get? 0 = some 'i' := by decide
      rw [hd] at hcw
      rw [← Option.some.inj hcw]
      exact ⟨by decide, by decide⟩
    have hwordIs := word_no_nl hcharsIs (by decide)
    rw [hlen2] at hwordIs
    rcases runRE_opt_inv hoptPc with hPc | heqPc
    · -- punctuation present
      obtain ⟨ha9, cp, hgp, hpp⟩ := runRE_cls_inv hPc
      subst ha9
      have hPcA : nonAAt t a8 :=
        ⟨cp, hgp, colonDot_not_ws hpp, colonDot_toLower_ne_a hpp⟩
      refine ⟨m1, a8 + 1, hle1, by omega, by omega, helen, hws1, hfirst, ?_, ?_, ?_⟩
      · exact ⟨cp, by simpa using hgp, colonDot_not_ws hpp⟩
      · intro j hj1 hj2
        exact hwsC j hj1 hj2
      · intro p hp1 hp2 hnl
        rcases Nat.lt_or_ge (p - 1) (a4 + w3.length) with hc1 | hc1
        · exact hcore (a8 + 1) (by omega) p hp1 hc1 hnl
        rcases Nat.lt_or_ge (p - 1) a6 with hc2 | hc2
        · exact gap_no_a hwsA hIs0 (by omega) (by omega) (by omega)
        rcases Nat.lt_or_ge (p - 1) (a6 + 2) with hc3 | hc3
        · exact absurd hnl (hwordIs (p - 1) hc2 hc3)
        · exact gap_no_a hwsB hPcA (by omega) (by omega) (by omega)
    · -- no punctuation
      subst heqPc
      refine ⟨m1, a6 + 2, hle1, by omega, by omega, helen, hws1, hfirst, ?_, ?_, ?_⟩
      · obtain ⟨c, cw, hc, hcw, hlc⟩ := hcharsIs 1 (by decide)
        have hcw' : cw = 's' := by
          have hd : (str "is").get? 1 = some 's' := by decide
          rw [hd] at hcw
          exact (Option.some.inj hcw).symm
        subst hcw'
        exact ⟨c, by rwa [show a6 + 2 - 1 = a6 + 1 by omega],
          not_ws_of_toLower hlc (by decide)⟩
      · intro j hj1 hj2
        rcases Nat.lt_or_ge j a9 with hlt | hge
        · exact hwsB j hj1 hlt
        · exact hwsC j hge hj2
      · intro p hp1 hp2 hnl
        rcases Nat.lt_or_ge (p - 1) (a4 + w3.length) with hc1 | hc1
        · exact hcore (a6 + 2) (by omega) p hp1 hc1 hnl
        rcases Nat.lt_or_ge (p - 1) a6 with hc2 | hc2
        · exact gap_no_a hwsA hIs0 (by omega) (by omega) (by omega)
        · exact absurd hnl (hwordIs (p - 1) hc2 (by omega))
  · -- "is" absent
    subst heqIs
    rcases runRE_opt_inv hoptPc with hPc | heqPc
    · -- punctuation present
      obtain ⟨ha9, cp, hgp, hpp⟩ := runRE_cls_inv hPc
      subst ha9
      have hPcA : nonAAt t a8 :=
        ⟨cp, hgp, colonDot_not_ws hpp, colonDot_toLower_ne_a hpp⟩
      have hwsAB : ∀ j, a4 + w3.length ≤ j → j < a8 →
          ∃ c, t.get? j = some c ∧ isWs c = true := by
        intro j hj1 hj2
        rcases Nat.lt_or_ge j a7 with hlt | hge
        · exact hwsA j hj1 hlt
        · exact hwsB j hge hj2
      refine ⟨m1, a8 + 1, hle1, by omega, by omega, helen, hws1, hfirst, ?_, ?_, ?_⟩
      · exact ⟨cp, by simpa using hgp, colonDot_not_ws hpp⟩
      · intro j hj1 hj2
        exact hwsC j hj1 hj2
      · intro p hp1 hp2 hnl
        rcases Nat.lt_or_ge (p - 1) (a4 + w3.length) with hc1 | hc1
        · exact hcore (a8 + 1) (by omega) p hp1 hc1 hnl
        · exact gap_no_a hwsAB hPcA (by omega) (by omega) (by omega)
    · -- no punctuation: the span's content ends with w3
      subst heqPc
      refine ⟨m1, a4 + w3.length, hle1, by omega, by omega, helen, hws1, hfirst, ?_, ?_, ?_⟩
      · obtain ⟨c, cw, hc, hcw, hlc⟩ := hchars3 (w3.length - 1) (by omega)
        refine ⟨c, by rwa [show a4 + w3.length - 1 = a4 + (w3.length - 1) by omega],
          not_ws_of_toLower hlc (hw3l cw hcw)⟩
      · intro j hj1 hj2
        rcases Nat.lt_or_ge j a7 with hlt | hge
        · exact hwsA j hj1 hlt
        rcases Nat.lt_or_ge j a9 with hlt2 | hge2
        · exact hwsB j hge hlt2
        · exact hwsC j hge2 hj2
      · intro p hp1 hp2 hnl
        exact hcore (a4 + w3.length) (by omega) p hp1 (by omega) hnl

theorem word_first_spec {w : List Char} {c0 : Char} (hw : w.get? 0 = some c0)
    (h1 : isWs c0 = false) (h2 : c0 ≠ 'a') :
    ∀ cw, w.get? 0 = some cw → isWs cw = false ∧ cw ≠ 'a' := by
  intro cw hcw
  rw [hw] at hcw
  rw [← Option.some.inj hcw]
  exact ⟨h1, h2⟩

theorem word_last_spec {w : List Char} {c0 : Char} (hw : w.get? (w.length - 1) = some c0)
    (h1 : isWs c0 = false) :
    ∀ cw, w.get? (w.length - 1) = some cw → isWs cw = false := by
  intro cw hcw
  rw [hw] at hcw
  rw [← Option.some.inj hcw]
  exact h1

theorem word_chars_spec {w : List Char} (hall : w.all (fun c => decide (c ≠ '\n')) = true) :
    ∀ j, j < w.length → ∀ cw, w.get? j = some cw → cw ≠ '\n' := by
  intro j hj cw hcw
  have := List.all_eq_true.mp hall cw (List.get?_mem hcw)
  exact of_decide_eq_true this

theorem claims_span_struct {t : List Char} {s e : Nat} (h : e ∈ runRE claimsRE t s) :
    ∃ q bnd, HeaderSpan t s q bnd e := by
  unfold claimsRE at h
  rcases runRE_alt_inv h with h1 | h1
  · exact claimsB1_span h1
  rcases runRE_alt_inv h1 with h2 | h2
  · unfold claimsB2 at h2
    exact claimsB23_span (by decide) (by decide) (by decide)
      (word_chars_spec (by decide)) (word_chars_spec (by decide))
      (word_chars_spec (by decide))
      (word_first_spec (by decide : (str "what").get? 0 = some 'w') (by decide) (by decide))
      (word_first_spec (by decide : (str "is").get? 0 = some 'i') (by decide) (by decide))
      (word_first_spec (by decide : (str "claimed").get? 0 = some 'c') (by decide) (by decide))
      (word_last_spec (by decide : (str "claimed").get? ((str "claimed").length - 1) = some 'd')
        (by decide)) h2
  rcases runRE_alt_inv h2 with h3 | h3
  · unfold claimsB3 at h3
    exact claimsB23_span (by decide) (by decide) (by decide)
      (word_chars_spec (by decide)) (word_chars_spec (by decide))
      (word_chars_spec (by decide))
      (word_first_spec (by decide : (str "what").get? 0 = some 'w') (by decide) (by decide))
      (word_first_spec (by decide : (str "we").get? 0 = some 'w') (by decide) (by decide))
      (word_first_spec (by decide : (str "claim").get? 0 = some 'c') (by decide) (by decide))
      (word_last_spec (by decide : (str "claim").get? ((str "claim").length - 1) = some 'm')
        (by decide)) h3
  rcases runRE_alt_inv h3 with h4 | h4
  · unfold claimsB4 at h4
    exact claimsB45_span (by decide) (word_chars_spec (by decide))
      (word_first_spec (by decide : (str "i").get? 0 = some 'i') (by decide) (by decide)) h4
  · unfold claimsB5 at h4
    exact claimsB45_span (by decide) (word_chars_spec (by decide))
      (word_first_spec (by decide : (str "we").get? 0 = some 'w') (by decide) (by decide)) h4

/-! ## C9: assembling the claims-output invariant -/

theorem head?_of_get?0 {l : List Char} {c : Char} (h : l.get? 0 = some c) :
    l.head? = some c := by
  cases l with
  | nil => simp at h
  | cons a as => simpa using h

theorem trimL_window {l : List Char} {cs q : Nat} (hq : cs ≤ q)
    (hws : ∀ j, cs ≤ j → j < q → wsAt l j)
    (hq0 : ∃ c, l.get? q = some c ∧ isWs c = false) :
    trimL (l.drop cs) = l.drop q := by
  have hdecomp : l.drop cs = (l.drop cs).take (q - cs) ++ l.drop q := by
    conv_lhs => rw [← List.take_append_drop (q - cs) (l.drop cs)]
    rw [List.drop_drop, show cs + (q - cs) = q by omega]
  obtain ⟨c0, hc0, hw0⟩ := hq0
  unfold trimL
  rw [hdecomp, dropWhile_append_of_all _ ?_]
  · refine dropWhile_head_neg ?_ hw0
    refine head?_of_get?0 ?_
    rw [get?_drop_add]
    simpa using hc0
  · intro c hc
    obtain ⟨j, hj⟩ := List.mem_iff_get?.mp hc
    have hjlt : j < q - cs := by
      obtain ⟨hlt, -⟩ := List.get?_eq_some.mp hj
      rw [List.length_take] at hlt
      omega
    rw [List.get?_take hjlt, get?_drop_add] at hj
    obtain ⟨c', hc', hw'⟩ := hws (cs + j) (by omega) (by omega)
    rw [hc'] at hj
    rw [← Option.some.inj hj]
    exact hw'

theorem window_split {l : List Char} {q b : Nat} (h1 : q ≤ b) (h2 : b ≤ l.length) :
    l.drop q = (l.take b).drop q ++ l.drop b := by
  conv_lhs => rw [← List.take_append_drop b l]
  rw [drop_append_le _ (by rw [List.length_take]; omega)]

theorem trimR_eq_self {u : List Char} (hne : u ≠ [])
    (hlast : ∃ c, u.get? (u.length - 1) = some c ∧ isWs c = false) : trimR u = u := by
  obtain ⟨c, hc, hcw⟩ := hlast
  have hlen : 0 < u.length := List.length_pos.mpr hne
  have hdecomp : u = u.take (u.length - 1) ++ [c] := by
    have := take_concat_get? hc
    rw [show u.length - 1 + 1 = u.length by omega, List.take_length] at this
    exact this
  conv_lhs => rw [hdecomp]
  rw [trimR_concat hcw]
  exact hdecomp.symm

theorem trimR_append_ws (u v : List Char) (hv : ∀ c ∈ v, isWs c = true) :
    trimR (u ++ v) = trimR u := by
  unfold trimR
  rw [List.reverse_append, dropWhile_append_of_all u.reverse
    (fun c hc => hv c (List.mem_reverse.mp hc))]

theorem trimL_head_neg {u : List Char} {c : Char} (hh : u.head? = some c)
    (hc : isWs c = false) : trimL u = u :=
  dropWhile_head_neg hh hc

/-- C9: whenever the splitter finds a claims header, the final claims output
(after the tail abstract stripper) is a nonempty string beginning with the
matched claims-header text (trimmed); no abstract-header match can cut into
the header itself. -/
theorem C9_claims_output_keeps_header (full : List Char) (cs ce : Nat)
    (h : reSearch claimsRE full = some (cs, ce)) :
    ∃ rest, (splitAndSave full).claims = some (trim (pySlice full cs ce) ++ rest) ∧
      trim (pySlice full cs ce) ≠ [] := by
  obtain ⟨-, hhead, -⟩ := searchFrom_some_spec h
  have hmem : ce ∈ runRE claimsRE full cs := head?_mem hhead
  obtain ⟨q, bnd, hsq, hqb, hbe, hel, hlead, hfirst, hlast, htrail, hnoa⟩ :=
    claims_span_struct hmem
  obtain ⟨c0, hc0, hc0w, hc0a⟩ := hfirst
  have hXlen : ((full.take bnd).drop q).length = bnd - q := by
    rw [List.length_drop, List.length_take]
    omega
  have hXne : (full.take bnd).drop q ≠ [] := by
    refine List.length_pos.mp ?_
    rw [hXlen]
    omega
  have hXidx : ∀ j, j < bnd - q → ((full.take bnd).drop q).get? j = full.get? (q + j) := by
    intro j hj
    rw [get?_drop_add, List.get?_take (by omega)]
  have hXlast : ∃ c, ((full.take bnd).drop q).get? (((full.take bnd).drop q).length - 1)
      = some c ∧ isWs c = false := by
    obtain ⟨cl, hcl, hclw⟩ := hlast
    refine ⟨cl, ?_, hclw⟩
    rw [hXlen, hXidx (bnd - q - 1) (by omega), show q + (bnd - q - 1) = bnd - 1 by omega]
    exact hcl
  have hXtrimR : trimR ((full.take bnd).drop q) = (full.take bnd).drop q :=
    trimR_eq_self hXne hXlast
  have hX0 : ((full.take bnd).drop q).get? 0 = some c0 := by
    rw [hXidx 0 (by omega)]
    simpa using hc0
  have hX : trim (pySlice full cs ce) = (full.take bnd).drop q := by
    unfold pySlice trim
    rw [trimL_window (l := full.take ce) hsq
      (fun j hj1 hj2 => by
        obtain ⟨c, hcg, hcw⟩ := hlead j hj1 hj2
        exact ⟨c, by rw [List.get?_take (by omega)]; exact hcg, hcw⟩)
      ⟨c0, by rw [List.get?_take (by omega)]; exact hc0, hc0w⟩]
    rw [window_split (l := full.take ce) (b := bnd) (Nat.le_of_lt hqb)
      (by rw [List.length_take]; omega)]
    rw [List.take_take, min_eq_left hbe]
    rw [trimR_append_ws _ _ (fun c hc => by
      obtain ⟨j, hj⟩ := List.mem_iff_get?.mp hc
      obtain ⟨hlt, -⟩ := List.get?_eq_some.mp hj
      rw [List.length_drop, List.length_take] at hlt
      rw [get?_drop_add, List.get?_take (by omega)] at hj
      obtain ⟨c', hc', hcw⟩ := htrail (bnd + j) (by omega) (by omega)
      rw [hc'] at hj
      rw [← Option.some.inj hj]
      exact hcw)]
    exact hXtrimR
  have hct0a : trim (full.drop cs) = trimR ((full.take bnd).drop q ++ full.drop bnd) := by
    unfold trim
    rw [trimL_window (l := full) hsq hlead ⟨c0, hc0, hc0w⟩,
      window_split (l := full) (Nat.le_of_lt hqb) (by omega)]
  obtain ⟨r0, hr0⟩ := trimR_append_exists ((full.take bnd).drop q) (full.drop bnd) hXtrimR
  have hct0 : trim (full.drop cs) = (full.take bnd).drop q ++ r0 := hct0a.trans hr0
  have hct0idx : ∀ j, j < bnd - q →
      (trim (full.drop cs)).get? j = full.get? (q + j) := by
    intro j hj
    rw [hct0, List.get?_append (by rw [hXlen]; omega), hXidx j hj]
  unfold splitAndSave
  rw [h]
  dsimp only
  rw [hX]
  cases habs : reSearch abstractRE (trim (full.drop cs)) with
  | none =>
    refine ⟨r0, ?_, hXne⟩
    unfold stripAbstractFromClaims
    rw [habs]
    dsimp only
    rw [hct0]
  | some pr =>
    obtain ⟨pm, pe⟩ := pr
    obtain ⟨-, hahead, -⟩ := searchFrom_some_spec habs
    have hamem : pe ∈ runRE abstractRE (trim (full.drop cs)) pm := head?_mem hahead
    obtain ⟨hbolp, k, hkr, ca, hca, hcaw, hcaa⟩ := abstract_match_head hamem
    have hpm : bnd - q ≤ pm := by
      by_contra hcon
      push_neg at hcon
      rcases Nat.eq_zero_or_pos pm with rfl | hpmpos
      · cases k with
        | zero =>
          simp only [Nat.add_zero, Nat.zero_add] at hca
          rw [hct0idx 0 (by omega), Nat.add_zero] at hca
          rw [hca] at hc0
          exact hc0a ((Option.some.inj hc0) ▸ hcaa)
        | succ k' =>
          obtain ⟨cw0, hcw0, hcww⟩ := hkr 0 (by omega)
          simp only [Nat.add_zero, Nat.zero_add] at hcw0
          rw [hct0idx 0 (by omega), Nat.add_zero] at hcw0
          rw [hcw0] at hc0
          rw [Option.some.inj hc0, hc0w] at hcww
          exact Bool.noConfusion hcww
      · have hnl : (trim (full.drop cs)).get? (pm - 1) = some '\n' := by
          rcases hbolp with h0 | hnl
          · omega
          · exact hnl
        have hfullnl : full.get? (q + pm - 1) = some '\n' := by
          have hidx := hct0idx (pm - 1) (by omega)
          rw [hidx] at hnl
          rwa [show q + (pm - 1) = q + pm - 1 by omega] at hnl
        obtain ⟨k', hk'r, hk'b, hna'⟩ := hnoa (q + pm) (by omega) (by omega) hfullnl
        obtain ⟨ca', hca', hca'w, hca'a⟩ := hna'
        rcases Nat.lt_trichotomy k k' with hkk | hkk | hkk
        · obtain ⟨cw, hcw, hcww⟩ := hk'r k hkk
          rw [hct0idx (pm + k) (by omega),
            show q + (pm + k) = q + pm + k by omega, hcw] at hca
          rw [Option.some.inj hca, hcaw] at hcww
          exact Bool.noConfusion hcww
        · subst hkk
          rw [hct0idx (pm + k) (by omega),
            show q + (pm + k) = q + pm + k by omega, hca'] at hca
          exact hca'a ((Option.some.inj hca) ▸ hcaa)
        · obtain ⟨cw, hcw, hcww⟩ := hkr k' hkk
          rw [hct0idx (pm + k') (by omega),
            show q + (pm + k') = q + pm + k' by omega, hca'] at hcw
          rw [← Option.some.inj hcw, hca'w] at hcww
          exact Bool.noConfusion hcww
    have htake : (trim (full.drop cs)).take pm
        = (full.take bnd).drop q ++ r0.take (pm - (bnd - q)) := by
      rw [hct0, List.take_append_eq_append_take,
        List.take_of_length_le (by rw [hXlen]; omega), hXlen]
    have hhd : ((full.take bnd).drop q ++ r0.take (pm - (bnd - q))).head? = some c0 :=
      head?_of_get?0 (by rw [List.get?_append (by rw [hXlen]; omega)]; exact hX0)
    obtain ⟨r1, hr1⟩ :=
      trimR_append_exists ((full.take bnd).drop q) (r0.take (pm - (bnd - q))) hXtrimR
    refine ⟨r1, ?_, hXne⟩
    unfold stripAbstractFromClaims
    rw [habs]
    dsimp only
    rw [htake]
    unfold trim
    rw [trimL_head_neg hhd hc0w, hr1]

theorem C9_claims_output_witness :
    ∃ rest,
      (splitAndSave (str "Description here.\n\nClaims\n1. X.\n\nAbstract\nShort summary.")).claims
        = some (trim (pySlice (str "Description here.\n\nClaims\n1. X.\n\nAbstract\nShort summary.") 18 25) ++ rest) ∧
      trim (pySlice (str "Description here.\n\nClaims\n1. X.\n\nAbstract\nShort summary.") 18 25) ≠ [] :=
  C9_claims_output_keeps_header _ 18 25 (by decide)
